import Mathlib

/-!
Verification of the dispatch-engine core of the Eru Email Sender:
address validation, placeholder expansion, the Outlook-safe HTML
renderer and the send/retry worker, shallowly embedded from
`src/main.py`.  External effects (COM transport, filesystem, the
cooperative `running` flag) are modelled as explicit oracles.
-/

namespace Eru

/-- The ASCII whitespace characters removed by Python's `str.strip()`. -/
def pyWs (c : Char) : Bool :=
  c = ' ' || c = '\t' || c = '\n' || c = '\x0d' || c = '\x0b' || c = '\x0c'

/-- Embedding of Python `str.strip()` on the character list. -/
def pyStripL (s : List Char) : List Char :=
  ((s.dropWhile pyWs).reverse.dropWhile pyWs).reverse

/-- Embedding of Python `str.strip()` on strings. -/
def pyStrip (s : String) : String := String.mk (pyStripL s.data)

/-- `[A-Za-z]` from the validation regex. -/
def isAsciiLetter (c : Char) : Bool :=
  ('a' ≤ c && c ≤ 'z') || ('A' ≤ c && c ≤ 'Z')

/-- `[0-9]` from the validation regex. -/
def isAsciiDigit (c : Char) : Bool := '0' ≤ c && c ≤ '9'

/-- The local-part character class `[a-zA-Z0-9._%+-]`. -/
def isLocalChar (c : Char) : Bool :=
  isAsciiLetter c || isAsciiDigit c || c = '.' || c = '_' || c = '%' || c = '+' || c = '-'

/-- The domain character class `[a-zA-Z0-9.-]`. -/
def isDomainChar (c : Char) : Bool :=
  isAsciiLetter c || isAsciiDigit c || c = '.' || c = '-'

/-- The top-level-domain tail `[a-zA-Z]{2,}` (anchored at the end). -/
def matchTld (t : List Char) : Bool :=
  decide (2 ≤ t.length) && t.all isAsciiLetter

/-- Matching semantics of the regex tail `[a-zA-Z0-9.-]+\.[a-zA-Z]{2,}$`:
some split of `s` into a non-empty run of domain characters, a literal
dot, and a letters-only TLD. -/
def matchDomainTail (s : List Char) : Bool :=
  (List.range s.length).any fun i =>
    decide (1 ≤ i) && (s.take i).all isDomainChar &&
      decide ((s.drop i).head? = some '.') && matchTld (s.drop (i + 1))

/-- Matching semantics of the anchored pattern
`^[a-zA-Z0-9._%+-]+@[a-zA-Z0-9.-]+\.[a-zA-Z]{2,}$`.  Neither character
class contains `@`, so the local part necessarily ends at the first `@`
of the string. -/
def emailPattern (s : List Char) : Bool :=
  decide ((s.dropWhile fun c => decide (c ≠ '@')).head? = some '@')
    && decide (s.takeWhile (fun c => decide (c ≠ '@')) ≠ [])
    && (s.takeWhile fun c => decide (c ≠ '@')).all isLocalChar
    && matchDomainTail (s.dropWhile fun c => decide (c ≠ '@')).tail

/-- The checks `validate_email` performs on the stripped address
(regex match, `@`-count, local/domain emptiness, dot placement),
with the exact reason strings of the source. -/
def validateCore (e : List Char) : Bool × String :=
  if !emailPattern e then (false, "Invalid email format: " ++ String.mk e)
  else if !(decide (e.count '@' = 1)) then
    (false, "Email must contain exactly one @ symbol: " ++ String.mk e)
  else
    let l := e.takeWhile fun c => decide (c ≠ '@')
    let d := (e.dropWhile fun c => decide (c ≠ '@')).drop 1
    if l.length = 0 then (false, "Local part of email is empty")
    else if d.length = 0 then (false, "Domain part of email is empty")
    else if d.take 1 = ['.'] || d.getLast? = some '.' then
      (false, "Domain cannot start or end with dot: " ++ String.mk d)
    else (true, "")

/-- `validate_email` from the source.  Python's guard
`if not email or not str(email).strip()` is exactly "the stripped
address is empty"; afterwards only the stripped address is used. -/
def validate_email (email : String) : Bool × String :=
  if pyStripL email.data = [] then (false, "Email address is empty")
  else validateCore (pyStripL email.data)

/-- One recipient row of the working batch. -/
structure Row where
  fullName : String
  email : String
  cc : String
  attachmentPath : String
deriving DecidableEq

/-- One entry of the `invalid_emails` report of
`validate_emails_in_dataframe`. -/
structure RejectedEntry where
  row : Nat
  email : String
  err : String
deriving DecidableEq

/-- The per-row loop of `validate_emails_in_dataframe`: a row is kept
when its stripped address validates or is empty, otherwise it is
reported with the Excel-style row number `idx + 2`. -/
def validateRows : List (Nat × Row) → List (Nat × Row) × List RejectedEntry
  | [] => ([], [])
  | (i, r) :: rest =>
    let rec' := validateRows rest
    let e := pyStrip r.email
    let v := validate_email e
    if v.1 = true ∨ e = "" then ((i, r) :: rec'.1, rec'.2)
    else (rec'.1, ⟨i + 2, e, v.2⟩ :: rec'.2)

/-- `validate_emails_in_dataframe` from the source, with the dataframe
embedded as the list of its rows (index = dataframe position). -/
def validate_emails_in_dataframe (rows : List Row) :
    List (Nat × Row) × List RejectedEntry :=
  validateRows rows.enum

/-- `get_surname` from the source: strip, then the part before the
first comma (again stripped) when a comma is present. -/
def get_surname (fullname : String) : String :=
  let f := pyStripL fullname.data
  if ',' ∈ f then String.mk (pyStripL (f.takeWhile fun c => decide (c ≠ ',')))
  else String.mk f

/-- The surname rule in the words of the specification: the substring
before the first comma trimmed of surrounding whitespace when the name
contains a comma, otherwise the whole name trimmed. -/
def deriveSurnameSpec (fullname : String) : String :=
  if ',' ∈ fullname.data then
    String.mk (pyStripL (fullname.data.takeWhile fun c => decide (c ≠ ',')))
  else String.mk (pyStripL fullname.data)

section ListLemmas

variable {p : Char → Bool}

lemma dropWhile_append_of_all {a l : List Char} (h : ∀ c ∈ a, p c = true) :
    (a ++ l).dropWhile p = l.dropWhile p := by
  induction a with
  | nil => rfl
  | cons c a ih =>
    have hc : p c = true := h c (by simp)
    simp [List.dropWhile, hc]
    exact ih fun x hx => h x (by simp [hx])

lemma takeWhile_append_of_all {a l : List Char} (h : ∀ c ∈ a, p c = true) :
    (a ++ l).takeWhile p = a ++ l.takeWhile p := by
  induction a with
  | nil => rfl
  | cons c a ih =>
    have hc : p c = true := h c (by simp)
    simp [List.takeWhile, hc]
    exact ih fun x hx => h x (by simp [hx])

lemma takeWhile_append_of_exists {a l : List Char} (h : ∃ c ∈ a, p c = false) :
    (a ++ l).takeWhile p = a.takeWhile p := by
  induction a with
  | nil => simp at h
  | cons c a ih =>
    by_cases hc : p c = true
    · obtain ⟨x, hx, hpx⟩ := h
      rcases List.mem_cons.mp hx with h1 | h2
      · subst h1
        rw [hpx] at hc
        exact absurd hc (by decide)
      · rw [List.cons_append, List.takeWhile_cons_of_pos hc,
          List.takeWhile_cons_of_pos hc, ih ⟨x, h2, hpx⟩]
    · simp [List.takeWhile_cons_of_neg hc]

lemma dropWhile_append_of_ne_nil {l m : List Char} (h : l.dropWhile p ≠ []) :
    (l ++ m).dropWhile p = l.dropWhile p ++ m := by
  induction l with
  | nil => simp at h
  | cons c l ih =>
    by_cases hc : p c = true
    · simp only [List.cons_append, List.dropWhile, hc]
      simp only [List.dropWhile, hc] at h
      exact ih h
    · have hc' : p c = false := by simpa using hc
      simp [List.dropWhile, hc']

lemma count_takeWhile_eq_zero {l : List Char} {x : Char} (hx : p x = false) :
    (l.takeWhile p).count x = 0 := by
  rw [List.count_eq_zero]
  intro hmem
  have := List.takeWhile_subset (l := l) (p := p) hmem
  have hpx := List.mem_takeWhile_imp hmem
  rw [hx] at hpx
  exact Bool.false_ne_true hpx

lemma count_dropWhile {l : List Char} {x : Char} (hx : p x = false) :
    (l.dropWhile p).count x = l.count x := by
  conv_rhs => rw [← List.takeWhile_append_dropWhile (p := p) (l := l)]
  rw [List.count_append, count_takeWhile_eq_zero hx, Nat.zero_add]

lemma count_pyStripL {l : List Char} {x : Char} (hx : pyWs x = false) :
    (pyStripL l).count x = l.count x := by
  unfold pyStripL
  rw [List.count_reverse, count_dropWhile hx, List.count_reverse,
    count_dropWhile hx]

lemma mem_pyStripL {l : List Char} {x : Char} (hx : pyWs x = false) :
    x ∈ pyStripL l ↔ x ∈ l := by
  rw [← List.count_pos_iff, ← List.count_pos_iff, count_pyStripL hx]

lemma head?_dropWhile {l : List Char} {x : Char}
    (h : (l.dropWhile p).head? = some x) : p x = false := by
  induction l with
  | nil => simp [List.dropWhile] at h
  | cons c l ih =>
    by_cases hc : p c = true
    · simp only [List.dropWhile, hc] at h; exact ih h
    · have hc' : p c = false := by simpa using hc
      simp [List.dropWhile, hc'] at h
      rw [← h]; exact hc'

lemma getLast?_dropWhile {l : List Char} (h : l.dropWhile p ≠ []) :
    (l.dropWhile p).getLast? = l.getLast? := by
  induction l with
  | nil => simp at h
  | cons c l ih =>
    by_cases hc : p c = true
    · simp only [List.dropWhile, hc] at h ⊢
      rw [ih h]
      have hl : l ≠ [] := by
        intro he; rw [he] at h; simp [List.dropWhile] at h
      cases l with
      | nil => exact absurd rfl hl
      | cons d l => simp [List.getLast?]
    · have hc' : p c = false := by simpa using hc
      simp [List.dropWhile, hc']

lemma dropWhile_eq_self_of_head {l : List Char}
    (h : ∀ x, l.head? = some x → p x = false) : l.dropWhile p = l := by
  cases l with
  | nil => rfl
  | cons c l =>
    have := h c rfl
    simp [List.dropWhile, this]

lemma dropWhile_dropWhile_same {l : List Char} :
    (l.dropWhile p).dropWhile p = l.dropWhile p := by
  apply dropWhile_eq_self_of_head
  intro x hx
  exact head?_dropWhile hx

lemma pyStripL_idem (l : List Char) : pyStripL (pyStripL l) = pyStripL l := by
  by_cases hnil : pyStripL l = []
  · rw [hnil]; rfl
  · have h1 : (pyStripL l).dropWhile pyWs = pyStripL l := by
      apply dropWhile_eq_self_of_head
      intro x hx
      unfold pyStripL at hx
      rw [List.head?_reverse] at hx
      have hne : ((l.dropWhile pyWs).reverse.dropWhile pyWs) ≠ [] := by
        intro he
        apply hnil
        unfold pyStripL
        rw [he]; rfl
      rw [getLast?_dropWhile hne, List.getLast?_reverse] at hx
      exact head?_dropWhile hx
    have hstep : pyStripL (pyStripL l) =
        (((pyStripL l).dropWhile pyWs).reverse.dropWhile pyWs).reverse := rfl
    rw [hstep, h1]
    have hB : (pyStripL l).reverse = (l.dropWhile pyWs).reverse.dropWhile pyWs := by
      unfold pyStripL
      rw [List.reverse_reverse]
    rw [hB, dropWhile_dropWhile_same]
    rfl

end ListLemmas

section ValidatorLemmas

lemma all_count_eq_zero {p : Char → Bool} {l : List Char} {x : Char}
    (h : ∀ c ∈ l, p c = true) (hx : p x = false) : l.count x = 0 := by
  rw [List.count_eq_zero]
  intro hm
  rw [h x hm] at hx
  exact absurd hx (by decide)

lemma dropWhile_eq_nil_of_all {p : Char → Bool} {l : List Char}
    (h : ∀ c ∈ l, p c = true) : l.dropWhile p = [] := by
  induction l with
  | nil => rfl
  | cons c t ih =>
    rw [List.dropWhile_cons_of_pos (h c (by simp))]
    exact ih fun x hx => h x (by simp [hx])

lemma matchDomainTail_count_at {s : List Char} (h : matchDomainTail s = true) :
    s.count '@' = 0 := by
  unfold matchDomainTail at h
  rw [List.any_eq_true] at h
  obtain ⟨i, _, hcond⟩ := h
  simp only [Bool.and_eq_true, decide_eq_true_eq] at hcond
  obtain ⟨⟨⟨_, hdc⟩, hdot⟩, htld⟩ := hcond
  have hdrop : s.drop i = '.' :: s.drop (i + 1) := by
    cases hd : s.drop i with
    | nil => rw [hd] at hdot; simp at hdot
    | cons c t =>
      rw [hd] at hdot
      simp only [List.head?_cons, Option.some.injEq] at hdot
      subst hdot
      have ht : t = s.drop (i + 1) := by
        rw [← List.tail_drop, hd]
        rfl
      rw [ht]
  have htall : ∀ c ∈ s.drop (i + 1), isAsciiLetter c = true := by
    unfold matchTld at htld
    simp only [Bool.and_eq_true, List.all_eq_true] at htld
    exact htld.2
  have hs : s = s.take i ++ s.drop i := (List.take_append_drop i s).symm
  rw [hs, List.count_append, hdrop, List.count_cons]
  rw [all_count_eq_zero (by simpa using hdc) (by decide : isDomainChar '@' = false)]
  rw [all_count_eq_zero htall (by decide : isAsciiLetter '@' = false)]
  simp

lemma emailPattern_count_at {s : List Char} (h : emailPattern s = true) :
    s.count '@' = 1 := by
  unfold emailPattern at h
  simp only [Bool.and_eq_true, decide_eq_true_eq] at h
  obtain ⟨⟨⟨hhead, _⟩, _⟩, hdom⟩ := h
  have hr : s.dropWhile (fun c => decide (c ≠ '@')) =
      '@' :: (s.dropWhile fun c => decide (c ≠ '@')).tail := by
    cases hd : s.dropWhile fun c => decide (c ≠ '@') with
    | nil => rw [hd] at hhead; simp at hhead
    | cons c t =>
      rw [hd] at hhead
      simp only [List.head?_cons, Option.some.injEq] at hhead
      rw [hhead]
      rfl
  have hs : s = (s.takeWhile fun c => decide (c ≠ '@')) ++
      (s.dropWhile fun c => decide (c ≠ '@')) :=
    (List.takeWhile_append_dropWhile _ s).symm
  conv_lhs => rw [hs]
  rw [List.count_append, hr, List.count_cons,
    count_takeWhile_eq_zero (by decide : (fun c => decide (c ≠ '@')) '@' = false)]
  rw [matchDomainTail_count_at hdom]
  simp

end ValidatorLemmas

section PadLemmas

lemma pyStripL_pad {w1 w2 l : List Char} (h1 : ∀ c ∈ w1, pyWs c = true)
    (h2 : ∀ c ∈ w2, pyWs c = true) :
    pyStripL (w1 ++ l ++ w2) = pyStripL l := by
  unfold pyStripL
  rw [List.append_assoc, List.dropWhile_append_of_pos h1]
  by_cases hA : l.dropWhile pyWs = []
  · have hlw : ∀ c ∈ l, pyWs c = true := by
      intro c hc
      have hl : l = l.takeWhile pyWs := by
        conv_lhs => rw [← List.takeWhile_append_dropWhile pyWs l]
        rw [hA, List.append_nil]
      rw [hl] at hc
      exact List.mem_takeWhile_imp hc
    have hall : ∀ c ∈ l ++ w2, pyWs c = true := by
      intro c hc
      rcases List.mem_append.mp hc with h | h
      · exact hlw c h
      · exact h2 c h
    rw [dropWhile_eq_nil_of_all hall, hA]
  · rw [dropWhile_append_of_ne_nil hA, List.reverse_append,
      List.dropWhile_append_of_pos (by intro c hc; exact h2 c (List.mem_reverse.mp hc))]

end PadLemmas

/-- C10: `validate_email` strips surrounding whitespace before applying
any rule, so whitespace padding never changes a valid address into an
invalid one. -/
theorem c10_validate_strips_whitespace (w1 w2 : List Char) (v : String)
    (h1 : ∀ c ∈ w1, pyWs c = true) (h2 : ∀ c ∈ w2, pyWs c = true)
    (hv : (validate_email v).1 = true) :
    (validate_email (String.mk (w1 ++ v.data ++ w2))).1 = true := by
  have hpad : pyStripL (String.mk (w1 ++ v.data ++ w2)).data = pyStripL v.data :=
    pyStripL_pad h1 h2
  unfold validate_email at hv ⊢
  simp only [show (String.mk (w1 ++ v.data ++ w2)).data = w1 ++ v.data ++ w2 from rfl]
    at hpad ⊢
  rw [hpad]
  exact hv

/-- Witness for C10 at the spec's example `"  a@b.com  "`. -/
theorem c10_validate_strips_whitespace_witness :
    (validate_email "a@b.com").1 = true ∧
      (validate_email (String.mk ([' ', ' '] ++ "a@b.com".data ++ [' ', ' ']))).1 = true :=
  ⟨by decide,
    c10_validate_strips_whitespace [' ', ' '] [' ', ' '] "a@b.com"
      (by decide) (by decide) (by decide)⟩

/-- C7 counterexample: a non-empty address with zero `@` characters is
rejected, but its reason string (`"Invalid email format: abc"`) does not
mention `@`. -/
theorem c7_counterexample :
    ("abc" ≠ "" ∧ "abc".data.count '@' = 0) ∧
      (validate_email "abc").1 = false ∧
      '@' ∉ (validate_email "abc").2.data := by decide

/-- C7 (amended): every non-empty address whose `@`-count is not one is
classified invalid, and — because the regex admits exactly one `@`, so
such an address fails the regex before the dedicated `@`-count branch
can fire — the reason is the regex failure's
`"Invalid email format: <stripped address>"` whenever the address does
not strip to empty.  Hence for more than one `@` the reason mentions
`@` only because it echoes the address, while for zero `@` it does not
mention `@` at all. -/
theorem c7_amended_multi_at_invalid (s : String) (_hne : s ≠ "")
    (hcount : s.data.count '@' ≠ 1) :
    (validate_email s).1 = false
    ∧ (pyStripL s.data ≠ [] →
        (validate_email s).2 =
          "Invalid email format: " ++ String.mk (pyStripL s.data))
    ∧ (2 ≤ s.data.count '@' → '@' ∈ (validate_email s).2.data) := by
  have hat : pyWs '@' = false := by decide
  have hcnt : (pyStripL s.data).count '@' = s.data.count '@' := count_pyStripL hat
  unfold validate_email
  by_cases hstrip : pyStripL s.data = []
  · rw [if_pos hstrip]
    refine ⟨rfl, fun hne => absurd hstrip hne, fun h2 => ?_⟩
    rw [hstrip] at hcnt
    simp only [List.count_nil] at hcnt
    rw [← hcnt] at h2
    exact absurd h2 (by decide)
  · rw [if_neg hstrip]
    have hpat : emailPattern (pyStripL s.data) = false := by
      by_cases hp : emailPattern (pyStripL s.data) = true
      · exact absurd (hcnt ▸ emailPattern_count_at hp) hcount
      · simpa using hp
    unfold validateCore
    rw [hpat]
    refine ⟨rfl, fun _ => rfl, fun h2 => ?_⟩
    show '@' ∈ ("Invalid email format: " ++ String.mk (pyStripL s.data)).data
    rw [String.data_append]
    apply List.mem_append.mpr
    right
    show '@' ∈ pyStripL s.data
    rw [← List.count_pos_iff, hcnt]
    omega

/-- Witness for the amended C7 at a two-`@` address: invalid, with the
echoed bad-format reason, which mentions `@`. -/
theorem c7_amended_multi_at_invalid_witness :
    ("a@b@c.de" ≠ "" ∧ "a@b@c.de".data.count '@' ≠ 1) ∧
      (validate_email "a@b@c.de").1 = false ∧
      (pyStripL "a@b@c.de".data ≠ [] →
        (validate_email "a@b@c.de").2 =
          "Invalid email format: " ++ String.mk (pyStripL "a@b@c.de".data)) ∧
      (2 ≤ "a@b@c.de".data.count '@' → '@' ∈ (validate_email "a@b@c.de").2.data) :=
  ⟨⟨by decide, by decide⟩,
    c7_amended_multi_at_invalid "a@b@c.de" (by decide) (by decide)⟩

section BatchLemmas

lemma validateRows_cons (i : Nat) (r : Row) (tl : List (Nat × Row)) :
    validateRows ((i, r) :: tl) =
      if (validate_email (pyStrip r.email)).1 = true ∨ pyStrip r.email = "" then
        ((i, r) :: (validateRows tl).1, (validateRows tl).2)
      else ((validateRows tl).1,
        ⟨i + 2, pyStrip r.email, (validate_email (pyStrip r.email)).2⟩ ::
          (validateRows tl).2) := rfl

lemma validateRows_keeps_empty {l : List (Nat × Row)} {i : Nat} {r : Row}
    (hmem : (i, r) ∈ l) (he : pyStrip r.email = "") :
    (i, r) ∈ (validateRows l).1 := by
  induction l with
  | nil => simp at hmem
  | cons hd tl ih =>
    obtain ⟨j, r'⟩ := hd
    rcases List.mem_cons.mp hmem with h1 | h2
    · rw [← h1, validateRows_cons, if_pos (Or.inr he)]
      exact List.mem_cons_self _ _
    · rw [validateRows_cons]
      by_cases hc : (validate_email (pyStrip r'.email)).1 = true ∨ pyStrip r'.email = ""
      · rw [if_pos hc]
        exact List.mem_cons_of_mem _ (ih h2)
      · rw [if_neg hc]
        exact ih h2

lemma validateRows_rejected {l : List (Nat × Row)} {entry : RejectedEntry}
    (hmem : entry ∈ (validateRows l).2) :
    ∃ j r', (j, r') ∈ l ∧ entry.row = j + 2 ∧ pyStrip r'.email ≠ "" := by
  induction l with
  | nil => simp [validateRows] at hmem
  | cons hd tl ih =>
    obtain ⟨j, r'⟩ := hd
    rw [validateRows_cons] at hmem
    by_cases hc : (validate_email (pyStrip r'.email)).1 = true ∨ pyStrip r'.email = ""
    · rw [if_pos hc] at hmem
      obtain ⟨j', r'', hj, hrow, hne⟩ := ih hmem
      exact ⟨j', r'', List.mem_cons_of_mem _ hj, hrow, hne⟩
    · rw [if_neg hc] at hmem
      rcases List.mem_cons.mp hmem with h1 | h2
      · refine ⟨j, r', List.mem_cons_self _ _, ?_, ?_⟩
        · rw [h1]
        · intro he
          exact hc (Or.inr he)
      · obtain ⟨j', r'', hj, hrow, hne⟩ := ih h2
        exact ⟨j', r'', List.mem_cons_of_mem _ hj, hrow, hne⟩

end BatchLemmas

/-- C8: `validate_email` rejects the empty and whitespace-only address
with the "empty" reason, yet `validate_emails_in_dataframe` retains any
row whose address strips to empty in the accepted rows and never reports
it in the rejected list. -/
theorem c8_empty_rejected_but_batch_keeps :
    (validate_email "" = (false, "Email address is empty") ∧
      validate_email "   " = (false, "Email address is empty")) ∧
    ∀ (rows : List Row) (i : Nat) (r : Row), (i, r) ∈ rows.enum →
      pyStrip r.email = "" →
      (i, r) ∈ (validate_emails_in_dataframe rows).1 ∧
        ∀ entry ∈ (validate_emails_in_dataframe rows).2, entry.row ≠ i + 2 := by
  refine ⟨⟨by decide, by decide⟩, ?_⟩
  intro rows i r hmem he
  refine ⟨validateRows_keeps_empty hmem he, ?_⟩
  intro entry hentry hrow
  obtain ⟨j, r', hj, hrowj, hne⟩ := validateRows_rejected hentry
  have hij : j = i := by omega
  subst hij
  have h1 : rows[j]? = some r := List.mk_mem_enum_iff_getElem?.mp hmem
  have h2 : rows[j]? = some r' := List.mk_mem_enum_iff_getElem?.mp hj
  rw [h1] at h2
  injection h2 with h3
  rw [← h3] at hne
  exact hne he

section SurnameLemmas

lemma pyStripL_ws_front {w x : List Char} (h : ∀ c ∈ w, pyWs c = true) :
    pyStripL (w ++ x) = pyStripL x := by
  have hpad := pyStripL_pad (l := x) h
    (show ∀ c ∈ ([] : List Char), pyWs c = true by intro c hc; simp at hc)
  rwa [List.append_nil] at hpad

lemma ws_ne_comma {c : Char} (h : pyWs c = true) :
    (fun c => decide (c ≠ ',')) c = true := by
  simp only [decide_eq_true_eq]
  intro he
  rw [he] at h
  exact absurd h (by decide)

lemma pyStripL_takeWhile_comma {l : List Char} (h : ',' ∈ l) :
    pyStripL ((pyStripL l).takeWhile fun c => decide (c ≠ ',')) =
      pyStripL (l.takeWhile fun c => decide (c ≠ ',')) := by
  have hwl : ∀ c ∈ l.takeWhile pyWs, pyWs c = true := fun c hc =>
    List.mem_takeWhile_imp hc
  have hql : ∀ c ∈ l.takeWhile pyWs, (fun c => decide (c ≠ ',')) c = true :=
    fun c hc => ws_ne_comma (hwl c hc)
  -- decompose the front strip
  have hsplit : l = l.takeWhile pyWs ++ l.dropWhile pyWs :=
    (List.takeWhile_append_dropWhile pyWs l).symm
  -- decompose the back strip of A := l.dropWhile pyWs
  have hsplitA : l.dropWhile pyWs =
      ((l.dropWhile pyWs).reverse.dropWhile pyWs).reverse ++
        ((l.dropWhile pyWs).reverse.takeWhile pyWs).reverse := by
    conv_lhs => rw [← List.reverse_reverse (l.dropWhile pyWs)]
    conv_lhs =>
      rw [← List.takeWhile_append_dropWhile pyWs (l.dropWhile pyWs).reverse]
    rw [List.reverse_append]
  have hcore : pyStripL l = ((l.dropWhile pyWs).reverse.dropWhile pyWs).reverse := rfl
  -- the stripped list still contains the comma
  have hcm : ',' ∈ pyStripL l := (mem_pyStripL (by decide)).mpr h
  rw [hcore] at hcm
  -- rewrite the right-hand side step by step
  conv_rhs => rw [hsplit]
  rw [takeWhile_append_of_all hql, pyStripL_ws_front hwl]
  conv_rhs => rw [hsplitA]
  rw [takeWhile_append_of_exists
    ⟨',', hcm, by decide⟩]
  rw [hcore]

lemma get_surname_eq_spec (s : String) : get_surname s = deriveSurnameSpec s := by
  unfold get_surname deriveSurnameSpec
  have hcm : (',' ∈ pyStripL s.data) ↔ (',' ∈ s.data) := mem_pyStripL (by decide)
  by_cases h : ',' ∈ s.data
  · rw [if_pos (hcm.mpr h), if_pos h, pyStripL_takeWhile_comma h]
  · rw [if_neg (fun hh => h (hcm.mp hh)), if_neg h]

lemma get_surname_strip (s : String) : get_surname (pyStrip s) = get_surname s := by
  unfold get_surname pyStrip
  simp only [show ∀ x : List Char, (String.mk x).data = x from fun _ => rfl]
  rw [pyStripL_idem]

end SurnameLemmas

section RendererDefs

/-- ASCII `\w` for the regex word boundary `\b`.  (The source's Python
regexes are Unicode-aware; the HTML handled here is ASCII.) -/
def isWordChar (c : Char) : Bool := isAsciiLetter c || isAsciiDigit c || c = '_'

/-- Consume a lowercase pattern case-insensitively; return the rest. -/
def startsWithCI : List Char → List Char → Option (List Char)
  | [], s => some s
  | _ :: _, [] => none
  | pc :: pr, c :: cr => if c.toLower = pc then startsWithCI pr cr else none

/-- The `[^>]*>` idiom: split at the first `>`, returning
(characters before it, rest after it). -/
def splitAtGt : List Char → Option (List Char × List Char)
  | [] => none
  | c :: r =>
    if c = '>' then some ([], r)
    else
      match splitAtGt r with
      | some p => some (c :: p.1, p.2)
      | none => none

/-- `<tag\b([^>]*)>` (with `boundary`) or `<tag[^>]*>` (without),
case-insensitively; returns (attributes, rest after the tag). -/
def matchTagOpen (boundary : Bool) (tag : List Char) :
    List Char → Option (List Char × List Char)
  | [] => none
  | c :: r =>
    if c = '<' then
      match startsWithCI tag r with
      | some rest =>
        if boundary then
          match rest with
          | [] => none
          | d :: _ => if isWordChar d then none else splitAtGt rest
        else splitAtGt rest
      | none => none
    else none

/-- `</tag>`, case-insensitively; returns the rest after the tag. -/
def matchCloseTag (tag : List Char) : List Char → Option (List Char)
  | c1 :: c2 :: r =>
    if c1 = '<' ∧ c2 = '/' then
      match startsWithCI tag r with
      | some rest =>
        match rest with
        | d :: r2 => if d = '>' then some r2 else none
        | [] => none
      | none => none
    else none
  | _ => none

/-- Lazy search (`[\s\S]*?`) for the first closing tag; returns
(content before it, rest after it). -/
def findClose (tag : List Char) : List Char → Option (List Char × List Char)
  | [] => none
  | c :: cs =>
    match matchCloseTag tag (c :: cs) with
    | some rest => some ([], rest)
    | none =>
      match findClose tag cs with
      | some p => some (c :: p.1, p.2)
      | none => none

/-- One line-break marker `<br\s*/?>`, case-insensitively. -/
def matchBr : List Char → Option (List Char)
  | [] => none
  | c :: r =>
    if c = '<' then
      match startsWithCI ['b', 'r'] r with
      | some rest =>
        match rest.dropWhile pyWs with
        | d :: r2 =>
          if d = '>' then some r2
          else if d = '/' then
            match r2 with
            | e :: r3 => if e = '>' then some r3 else none
            | [] => none
          else none
        | [] => none
      | none => none
    else none

lemma startsWithCI_le :
    ∀ (pat s r : List Char), startsWithCI pat s = some r → r.length ≤ s.length := by
  intro pat
  induction pat with
  | nil =>
    intro s r h
    unfold startsWithCI at h
    injection h with h2
    rw [← h2]
  | cons pc pr ih =>
    intro s r h
    cases s with
    | nil => exact absurd h (by simp [startsWithCI])
    | cons c cr =>
      unfold startsWithCI at h
      by_cases hc : c.toLower = pc
      · rw [if_pos hc] at h
        have := ih cr r h
        simp only [List.length_cons]
        omega
      · rw [if_neg hc] at h
        exact absurd h (by simp)

lemma splitAtGt_lt :
    ∀ (s : List Char) (p : List Char × List Char),
      splitAtGt s = some p → p.2.length < s.length := by
  intro s
  induction s with
  | nil => intro p h; exact absurd h (by simp [splitAtGt])
  | cons c r ih =>
    intro p h
    unfold splitAtGt at h
    by_cases hc : c = '>'
    · rw [if_pos hc] at h
      injection h with h2
      rw [← h2]
      simp
    · rw [if_neg hc] at h
      cases hq : splitAtGt r with
      | none => rw [hq] at h; exact absurd h (by simp)
      | some q =>
        rw [hq] at h
        injection h with h2
        rw [← h2]
        have := ih q hq
        simp only [List.length_cons]
        omega

lemma matchTagOpen_lt {boundary : Bool} {tag s : List Char}
    {p : List Char × List Char} (h : matchTagOpen boundary tag s = some p) :
    p.2.length < s.length := by
  cases s with
  | nil => exact absurd h (by simp [matchTagOpen])
  | cons c r =>
    simp only [matchTagOpen] at h
    by_cases hc : c = '<'
    · rw [if_pos hc] at h
      cases hsw : startsWithCI tag r with
      | none => rw [hsw] at h; exact absurd h (by simp)
      | some rest =>
        rw [hsw] at h
        dsimp only at h
        have hle : rest.length ≤ r.length := startsWithCI_le tag r rest hsw
        have hgt : splitAtGt rest = some p → p.2.length < (c :: r).length := by
          intro hg
          have := splitAtGt_lt rest p hg
          simp only [List.length_cons]
          omega
        cases boundary with
        | false => exact hgt h
        | true =>
          cases rest with
          | nil =>
            rw [if_pos rfl] at h
            exact absurd h (by simp)
          | cons d rr =>
            rw [if_pos rfl] at h
            dsimp only at h
            by_cases hw : isWordChar d = true
            · rw [if_pos hw] at h; exact absurd h (by simp)
            · rw [if_neg hw] at h; exact hgt h
    · rw [if_neg hc] at h
      exact absurd h (by simp)

lemma matchCloseTag_lt {tag s r : List Char} (h : matchCloseTag tag s = some r) :
    r.length < s.length := by
  cases s with
  | nil => exact absurd h (by simp [matchCloseTag])
  | cons c1 s1 =>
    cases s1 with
    | nil => exact absurd h (by simp [matchCloseTag])
    | cons c2 s2 =>
      simp only [matchCloseTag] at h
      by_cases hc : c1 = '<' ∧ c2 = '/'
      · rw [if_pos hc] at h
        cases hsw : startsWithCI tag s2 with
        | none => rw [hsw] at h; exact absurd h (by simp)
        | some rest =>
          rw [hsw] at h
          dsimp only at h
          have hle : rest.length ≤ s2.length := startsWithCI_le tag s2 rest hsw
          cases rest with
          | nil => exact absurd h (by simp)
          | cons d r2 =>
            dsimp only at h
            by_cases hd : d = '>'
            · rw [if_pos hd] at h
              injection h with h2
              rw [← h2]
              simp only [List.length_cons] at hle ⊢
              omega
            · rw [if_neg hd] at h
              exact absurd h (by simp)
      · rw [if_neg hc] at h
        exact absurd h (by simp)

lemma findClose_lt {tag : List Char} :
    ∀ {s : List Char} {p : List Char × List Char},
      findClose tag s = some p → p.2.length < s.length := by
  intro s
  induction s with
  | nil => intro p h; exact absurd h (by simp [findClose])
  | cons c cs ih =>
    intro p h
    unfold findClose at h
    cases hm : matchCloseTag tag (c :: cs) with
    | some rest =>
      rw [hm] at h
      injection h with h2
      rw [← h2]
      exact matchCloseTag_lt hm
    | none =>
      rw [hm] at h
      cases hf : findClose tag cs with
      | none => rw [hf] at h; exact absurd h (by simp)
      | some q =>
        rw [hf] at h
        injection h with h2
        rw [← h2]
        have := ih hf
        simp only [List.length_cons]
        omega

lemma matchBr_lt {s r : List Char} (h : matchBr s = some r) :
    r.length < s.length := by
  cases s with
  | nil => exact absurd h (by simp [matchBr])
  | cons c cr =>
    simp only [matchBr] at h
    by_cases hc : c = '<'
    · rw [if_pos hc] at h
      cases hsw : startsWithCI ['b', 'r'] cr with
      | none => rw [hsw] at h; exact absurd h (by simp)
      | some rest =>
        rw [hsw] at h
        dsimp only at h
        have hle : rest.length ≤ cr.length := startsWithCI_le _ cr rest hsw
        have hdw : (rest.dropWhile pyWs).length ≤ rest.length :=
          (List.dropWhile_sublist pyWs).length_le
        cases hr2 : rest.dropWhile pyWs with
        | nil => rw [hr2] at h; exact absurd h (by simp)
        | cons d r2 =>
          rw [hr2] at h
          dsimp only at h
          rw [hr2] at hdw
          by_cases hd : d = '>'
          · rw [if_pos hd] at h
            injection h with h2
            rw [← h2]
            simp only [List.length_cons] at hdw ⊢
            omega
          · rw [if_neg hd] at h
            by_cases hd2 : d = '/'
            · rw [if_pos hd2] at h
              cases r2 with
              | nil => exact absurd h (by simp)
              | cons e r3 =>
                dsimp only at h
                by_cases he : e = '>'
                · rw [if_pos he] at h
                  injection h with h2
                  rw [← h2]
                  simp only [List.length_cons] at hdw ⊢
                  omega
                · rw [if_neg he] at h
                  exact absurd h (by simp)
            · rw [if_neg hd2] at h
              exact absurd h (by simp)
    · rw [if_neg hc] at h
      exact absurd h (by simp)

/-- Embedding of `re.sub` for a fixed pattern: try the matcher at each
position from the left; on a match emit the replacement and continue
after the matched region (the replacement itself is not rescanned), on
a failure keep one character and move on. -/
def subScan (m : List Char → Option (List Char × List Char))
    (hm : ∀ s r t, m s = some (r, t) → t.length < s.length) :
    List Char → List Char
  | [] => []
  | c :: cs =>
    if h : (m (c :: cs)).isSome then
      ((m (c :: cs)).get h).1 ++ subScan m hm ((m (c :: cs)).get h).2
    else c :: subScan m hm cs
termination_by s => s.length
decreasing_by
  · exact hm _ _ _ (Option.some_get h).symm
  · simp

lemma subScan_nil (m) (hm : ∀ s r t, m s = some (r, t) → t.length < s.length) :
    subScan m hm [] = [] := by
  rw [subScan]

lemma subScan_cons_none (m) (hm : ∀ s r t, m s = some (r, t) → t.length < s.length)
    {c : Char} {cs : List Char} (h : m (c :: cs) = none) :
    subScan m hm (c :: cs) = c :: subScan m hm cs := by
  rw [subScan]
  rw [dif_neg (by simp [h])]

lemma subScan_cons_some (m) (hm : ∀ s r t, m s = some (r, t) → t.length < s.length)
    {c : Char} {cs r t : List Char} (h : m (c :: cs) = some (r, t)) :
    subScan m hm (c :: cs) = r ++ subScan m hm t := by
  rw [subScan]
  rw [dif_pos (by simp [h])]
  simp [h]

/-- Greedy repetition of the `<br\s*/?>\s*` group: how many line-break
markers (each with trailing whitespace) start here, and the rest. -/
def brRun (s : List Char) : Nat × List Char :=
  if h : (matchBr s).isSome then
    let p := brRun (((matchBr s).get h).dropWhile pyWs)
    (p.1 + 1, p.2)
  else (0, s)
termination_by s.length
decreasing_by
  have h1 : ((matchBr s).get h).length < s.length :=
    matchBr_lt (Option.some_get h).symm
  have h2 : (((matchBr s).get h).dropWhile pyWs).length ≤ ((matchBr s).get h).length :=
    (List.dropWhile_sublist pyWs).length_le
  omega

lemma brRun_none {s : List Char} (h : matchBr s = none) : brRun s = (0, s) := by
  rw [brRun]
  rw [dif_neg (by simp [h])]

lemma brRun_some {s r : List Char} (h : matchBr s = some r) :
    brRun s = ((brRun (r.dropWhile pyWs)).1 + 1, (brRun (r.dropWhile pyWs)).2) := by
  rw [brRun]
  rw [dif_pos (by simp [h])]
  simp [h]

lemma brRun_pos_lt :
    ∀ (n : Nat) (s : List Char), s.length ≤ n → 1 ≤ (brRun s).1 →
      (brRun s).2.length < s.length := by
  intro n
  induction n with
  | zero =>
    intro s hs h1
    have hnil : s = [] := List.length_eq_zero.mp (Nat.le_zero.mp hs)
    subst hnil
    rw [brRun_none (by rfl)] at h1
    simp at h1
  | succ n ih =>
    intro s hs h1
    cases hm : matchBr s with
    | none =>
      rw [brRun_none hm] at h1
      simp at h1
    | some r =>
      have hlt : r.length < s.length := matchBr_lt hm
      have hdw : (r.dropWhile pyWs).length ≤ r.length :=
        (List.dropWhile_sublist pyWs).length_le
      rw [brRun_some hm]
      by_cases hc : 1 ≤ (brRun (r.dropWhile pyWs)).1
      · have := ih (r.dropWhile pyWs) (by omega) hc
        simp only
        omega
      · cases hm2 : matchBr (r.dropWhile pyWs) with
        | none =>
          rw [brRun_none hm2]
          simp only
          omega
        | some r2 =>
          rw [brRun_some hm2] at hc
          simp at hc

/-- The spacer block substituted for runs of two or more `<br>`. -/
def spacerPad (n : Nat) : List Char :=
  ("<table role=\"presentation\" border=\"0\" cellspacing=\"0\" cellpadding=\"0\" width=\"100%\"><tr><td style=\"padding:0 0 ").data
    ++ (toString n).data
    ++ ("px 0;\"><span style=\"font-size:1px; line-height:1px;\">&nbsp;</span></td></tr></table>").data

def spacerHeightA : List Char :=
  ("<table role=\"presentation\" border=\"0\" cellspacing=\"0\" cellpadding=\"0\" width=\"100%\"><tr><td height=\"").data

def spacerHeightB : List Char :=
  ("\" style=\"font-size:0; line-height:0;\">&nbsp;</td></tr></table>").data

/-- The spacer table substituted for a blank paragraph. -/
def spacerHeight (n : Nat) : List Char :=
  spacerHeightA ++ (toString n).data ++ spacerHeightB

def paraTableA : List Char :=
  ("<table role=\"presentation\" border=\"0\" cellspacing=\"0\" cellpadding=\"0\" width=\"100%\"><tr><td style=\"line-height:1.35; mso-line-height-rule:exactly; font-family: Segoe UI, Arial, sans-serif;\">").data

def paraTableB : List Char :=
  ("</td></tr><tr><td height=\"").data

/-- The content-row + spacer-row table wrapping a non-empty paragraph. -/
def paraTable (content : List Char) (n : Nat) : List Char :=
  paraTableA ++ content ++ paraTableB ++ (toString n).data ++ spacerHeightB

/-- `<div\b([^>]*)>` → `<p\1>`. -/
def mDivOpen (s : List Char) : Option (List Char × List Char) :=
  match matchTagOpen true ['d', 'i', 'v'] s with
  | some p => some ('<' :: 'p' :: (p.1 ++ ['>']), p.2)
  | none => none

/-- `</div>` → `</p>`. -/
def mDivClose (s : List Char) : Option (List Char × List Char) :=
  match matchCloseTag ['d', 'i', 'v'] s with
  | some r => some (("</p>").data, r)
  | none => none

/-- `(?:<br\s*/?>\s*){2,}` → padding spacer table. -/
def mBrRun (n : Nat) (s : List Char) : Option (List Char × List Char) :=
  if 2 ≤ (brRun s).1 then some (spacerPad n, (brRun s).2) else none

/-- `<p\b[^>]*>\s*</p>` → height spacer table. -/
def mBlankP (n : Nat) (s : List Char) : Option (List Char × List Char) :=
  match matchTagOpen true ['p'] s with
  | some p =>
    match matchCloseTag ['p'] (p.2.dropWhile pyWs) with
    | some r2 => some (spacerHeight n, r2)
    | none => none
  | none => none

/-- `<p\b[^>]*>([\s\S]*?)</p>` → content row + spacer row. -/
def mParaWrap (n : Nat) (s : List Char) : Option (List Char × List Char) :=
  match matchTagOpen true ['p'] s with
  | some p =>
    match findClose ['p'] p.2 with
    | some q => some (paraTable q.1 n, q.2)
    | none => none
  | none => none

/-- Fallback `<br\s*/?>` → `<br/>` + height spacer table. -/
def mSingleBr (n : Nat) (s : List Char) : Option (List Char × List Char) :=
  match matchBr s with
  | some r => some (("<br/>").data ++ spacerHeight n, r)
  | none => none

lemma mDivOpen_lt : ∀ s r t, mDivOpen s = some (r, t) → t.length < s.length := by
  intro s r t h
  unfold mDivOpen at h
  cases hm : matchTagOpen true ['d', 'i', 'v'] s with
  | none => rw [hm] at h; exact absurd h (by simp)
  | some p =>
    rw [hm] at h
    rw [Option.some.injEq, Prod.mk.injEq] at h
    rw [← h.2]
    exact matchTagOpen_lt hm

lemma mDivClose_lt : ∀ s r t, mDivClose s = some (r, t) → t.length < s.length := by
  intro s r t h
  unfold mDivClose at h
  cases hm : matchCloseTag ['d', 'i', 'v'] s with
  | none => rw [hm] at h; exact absurd h (by simp)
  | some q =>
    rw [hm] at h
    rw [Option.some.injEq, Prod.mk.injEq] at h
    rw [← h.2]
    exact matchCloseTag_lt hm

lemma mBrRun_lt (n : Nat) :
    ∀ s r t, mBrRun n s = some (r, t) → t.length < s.length := by
  intro s r t h
  unfold mBrRun at h
  by_cases hc : 2 ≤ (brRun s).1
  · rw [if_pos hc] at h
    rw [Option.some.injEq, Prod.mk.injEq] at h
    rw [← h.2]
    exact brRun_pos_lt s.length s (Nat.le_refl _) (by omega)
  · rw [if_neg hc] at h
    exact absurd h (by simp)

lemma mBlankP_lt (n : Nat) :
    ∀ s r t, mBlankP n s = some (r, t) → t.length < s.length := by
  intro s r t h
  unfold mBlankP at h
  cases hm : matchTagOpen true ['p'] s with
  | none => rw [hm] at h; exact absurd h (by simp)
  | some p =>
    rw [hm] at h
    dsimp only at h
    cases hm2 : matchCloseTag ['p'] (p.2.dropWhile pyWs) with
    | none => rw [hm2] at h; exact absurd h (by simp)
    | some r2 =>
      rw [hm2] at h
      rw [Option.some.injEq, Prod.mk.injEq] at h
      have hlt2 := matchCloseTag_lt hm2
      have hdw : (p.2.dropWhile pyWs).length ≤ p.2.length :=
        (List.dropWhile_sublist pyWs).length_le
      have hlt1 := matchTagOpen_lt hm
      rw [← h.2]
      omega

lemma mParaWrap_lt (n : Nat) :
    ∀ s r t, mParaWrap n s = some (r, t) → t.length < s.length := by
  intro s r t h
  unfold mParaWrap at h
  cases hm : matchTagOpen true ['p'] s with
  | none => rw [hm] at h; exact absurd h (by simp)
  | some p =>
    rw [hm] at h
    dsimp only at h
    cases hm2 : findClose ['p'] p.2 with
    | none => rw [hm2] at h; exact absurd h (by simp)
    | some q =>
      rw [hm2] at h
      rw [Option.some.injEq, Prod.mk.injEq] at h
      have hlt2 := findClose_lt hm2
      have hlt1 := matchTagOpen_lt hm
      rw [← h.2]
      omega

lemma mSingleBr_lt (n : Nat) :
    ∀ s r t, mSingleBr n s = some (r, t) → t.length < s.length := by
  intro s r t h
  unfold mSingleBr at h
  cases hm : matchBr s with
  | none => rw [hm] at h; exact absurd h (by simp)
  | some q =>
    rw [hm] at h
    rw [Option.some.injEq, Prod.mk.injEq] at h
    rw [← h.2]
    exact matchBr_lt hm

/-- One attempt of `re.search(r"<body[^>]*>([\s\S]*?)</body>")` at the
current position: the group-1 content on success. -/
def tryBodyAt (s : List Char) : Option (List Char) :=
  match matchTagOpen false ['b', 'o', 'd', 'y'] s with
  | some p =>
    match findClose ['b', 'o', 'd', 'y'] p.2 with
    | some q => some q.1
    | none => none
  | none => none

/-- Leftmost search for the body-extraction pattern. -/
def searchBody : List Char → Option (List Char)
  | [] => none
  | c :: cs =>
    match tryBodyAt (c :: cs) with
    | some content => some content
    | none => searchBody cs

/-- Does `<p\b` (case-insensitive) match at this position? -/
def isPTagAt : List Char → Bool
  | c1 :: c2 :: rest =>
    decide (c1 = '<') && decide (c2.toLower = 'p') &&
      (match rest with
       | [] => true
       | d :: _ => !isWordChar d)
  | _ => false

/-- `re.search(r"<p\b", inner, re.IGNORECASE)` as a Boolean. -/
def hasPTag : List Char → Bool
  | [] => false
  | c :: cs => isPTagAt (c :: cs) || hasPTag cs

/-- Python's `in` on strings: substring containment. -/
def hasSubstr (pat s : List Char) : Bool :=
  (List.range (s.length + 1)).any fun i => pat.isPrefixOf (s.drop i)

def rolePres : List Char := ("role=\"presentation\"").data

/-- The document shell before the transformed content. -/
def shellA : String :=
  "<!DOCTYPE html>\n<html xmlns:v=\"urn:schemas-microsoft-com:vml\" xmlns:o=\"urn:schemas-microsoft-com:office:office\" xmlns=\"http://www.w3.org/1999/xhtml\">\n<head>\n  <meta http-equiv=\"x-ua-compatible\" content=\"IE=edge\">\n  <meta name=\"format-detection\" content=\"telephone=no, date=no, address=no, email=no\">\n  <meta name=\"x-apple-disable-message-reformatting\">\n  <!--[if mso]>\n  <xml>\n   <o:OfficeDocumentSettings>\n    <o:AllowPNG/>\n    <o:PixelsPerInch>96</o:PixelsPerInch>\n   </o:OfficeDocumentSettings>\n  </xml>\n  <style type=\"text/css\">\n    body, table, td, div, p, a \x7b font-family: Segoe UI, Arial, sans-serif !important; \x7d\n    p \x7b margin:0 !important; \x7d\n  </style>\n  <![endif]-->\n  <style>\n    body, table, td, div, p, a \x7b font-family: Segoe UI, Arial, sans-serif; -webkit-text-size-adjust: 100%; -ms-text-size-adjust: 100%; \x7d\n    p \x7b margin:0 !important; \x7d /* kept for safety but spacing handled by tables */\n    .content \x7b font-size: 11pt; line-height: 1.35; color:#2b2b2b; \x7d\n    img \x7b border:0; outline:0; text-decoration:none; -ms-interpolation-mode:bicubic; \x7d\n  </style>\n</head>\n<body style=\"Margin:0; padding:0; background:#ffffff;\">\n  <table role=\"presentation\" cellpadding=\"0\" cellspacing=\"0\" border=\"0\" width=\"100%\">\n    <tr>\n      <td align=\"left\" style=\"padding:0;\">\n        <div class=\"content\" style=\"font-family: Segoe UI, Arial, sans-serif; font-size:11pt; line-height:1.35; mso-line-height-rule:exactly;\">\n          "

/-- The document shell after the transformed content. -/
def shellB : String :=
  "\n        </div>\n      </td>\n    </tr>\n  </table>\n</body>\n</html>"

/-- `build_outlook_safe_html` from the source: body extraction, div
normalisation, multi-`<br>` collapsing, blank/normal paragraph
substitution, single-`<br>` fallback, then the shell wrap. -/
def build_outlook_safe_html (editor_html : String) (para_spacing_px : Int) : String :=
  let spx : Nat := (max 0 para_spacing_px).toNat
  let html := editor_html.data
  let inner0 :=
    match searchBody html with
    | some content => content
    | none => html
  let inner1 := subScan mDivOpen mDivOpen_lt inner0
  let inner2 := subScan mDivClose mDivClose_lt inner1
  let had_paragraphs := hasPTag inner2
  let inner3 := subScan (mBrRun spx) (mBrRun_lt spx) inner2
  let inner4 := subScan (mBlankP spx) (mBlankP_lt spx) inner3
  let inner5 := subScan (mParaWrap spx) (mParaWrap_lt spx) inner4
  let inner6 :=
    if !hasSubstr rolePres inner5 && !had_paragraphs then
      subScan (mSingleBr spx) (mSingleBr_lt spx) inner5
    else inner5
  String.mk (shellA.data ++ inner6 ++ shellB.data)

end RendererDefs

section RendererLemmas

/-- The closing tag of the single-paragraph inputs studied below. -/
def pClose : List Char := '<' :: '/' :: 'p' :: '>' :: []

lemma matchTagOpen_ne_lt {b : Bool} {tag : List Char} {x : Char} {xs : List Char}
    (hx : x ≠ '<') : matchTagOpen b tag (x :: xs) = none := by
  simp only [matchTagOpen]
  rw [if_neg hx]

lemma matchCloseTag_ne_lt {tag : List Char} {x : Char} {xs : List Char}
    (hx : x ≠ '<') : matchCloseTag tag (x :: xs) = none := by
  cases xs with
  | nil => rfl
  | cons y ys =>
    simp only [matchCloseTag]
    rw [if_neg (fun hcon => hx hcon.1)]

lemma matchBr_ne_lt {x : Char} {xs : List Char} (hx : x ≠ '<') :
    matchBr (x :: xs) = none := by
  simp only [matchBr]
  rw [if_neg hx]

lemma mDivOpen_ne_lt {x : Char} {xs : List Char} (hx : x ≠ '<') :
    mDivOpen (x :: xs) = none := by
  unfold mDivOpen
  rw [matchTagOpen_ne_lt hx]

lemma mDivClose_ne_lt {x : Char} {xs : List Char} (hx : x ≠ '<') :
    mDivClose (x :: xs) = none := by
  unfold mDivClose
  rw [matchCloseTag_ne_lt hx]

lemma mBrRun_ne_lt (n : Nat) {x : Char} {xs : List Char} (hx : x ≠ '<') :
    mBrRun n (x :: xs) = none := by
  unfold mBrRun
  rw [brRun_none (matchBr_ne_lt hx)]
  rw [if_neg (by simp)]

lemma mBlankP_ne_lt (n : Nat) {x : Char} {xs : List Char} (hx : x ≠ '<') :
    mBlankP n (x :: xs) = none := by
  unfold mBlankP
  rw [matchTagOpen_ne_lt hx]

lemma mParaWrap_ne_lt (n : Nat) {x : Char} {xs : List Char} (hx : x ≠ '<') :
    mParaWrap n (x :: xs) = none := by
  unfold mParaWrap
  rw [matchTagOpen_ne_lt hx]

lemma mSingleBr_ne_lt (n : Nat) {x : Char} {xs : List Char} (hx : x ≠ '<') :
    mSingleBr n (x :: xs) = none := by
  unfold mSingleBr
  rw [matchBr_ne_lt hx]

lemma tryBodyAt_ne_lt {x : Char} {xs : List Char} (hx : x ≠ '<') :
    tryBodyAt (x :: xs) = none := by
  unfold tryBodyAt
  rw [matchTagOpen_ne_lt hx]

lemma subScan_seg (m) (hm : ∀ s r t, m s = some (r, t) → t.length < s.length)
    (hmne : ∀ (x : Char) (xs : List Char), x ≠ '<' → m (x :: xs) = none) :
    ∀ (a t : List Char), '<' ∉ a →
      subScan m hm (a ++ t) = a ++ subScan m hm t := by
  intro a
  induction a with
  | nil => intro t _; rfl
  | cons x xs ih =>
    intro t ha
    have hx : x ≠ '<' := by
      intro he
      exact ha (he ▸ List.mem_cons_self x xs)
    rw [List.cons_append, subScan_cons_none m hm (hmne x (xs ++ t) hx),
      ih t fun hmem => ha (List.mem_cons_of_mem x hmem)]
    simp

lemma searchBody_cons_none {c : Char} {cs : List Char}
    (h : tryBodyAt (c :: cs) = none) : searchBody (c :: cs) = searchBody cs := by
  simp only [searchBody]
  rw [h]

lemma searchBody_seg :
    ∀ (a t : List Char), '<' ∉ a → searchBody (a ++ t) = searchBody t := by
  intro a
  induction a with
  | nil => intro t _; rfl
  | cons x xs ih =>
    intro t ha
    have hx : x ≠ '<' := by
      intro he
      exact ha (he ▸ List.mem_cons_self x xs)
    rw [List.cons_append, searchBody_cons_none (tryBodyAt_ne_lt hx),
      ih t fun hmem => ha (List.mem_cons_of_mem x hmem)]

lemma subScan_pClose (m) (hm : ∀ s r t, m s = some (r, t) → t.length < s.length)
    (hmne : ∀ (x : Char) (xs : List Char), x ≠ '<' → m (x :: xs) = none)
    (hct : m pClose = none) :
    subScan m hm pClose = pClose := by
  rw [show pClose = '<' :: ('/' :: 'p' :: '>' :: []) from rfl] at hct ⊢
  rw [subScan_cons_none m hm hct]
  have hseg := subScan_seg m hm hmne ('/' :: 'p' :: '>' :: []) [] (by decide)
  rw [List.append_nil] at hseg
  rw [hseg, subScan_nil]
  simp

lemma subScan_para_id (m) (hm : ∀ s r t, m s = some (r, t) → t.length < s.length)
    (hmne : ∀ (x : Char) (xs : List Char), x ≠ '<' → m (x :: xs) = none)
    {c : List Char} (hc : '<' ∉ c)
    (hu : m ('<' :: 'p' :: '>' :: (c ++ pClose)) = none) (hct : m pClose = none) :
    subScan m hm ('<' :: 'p' :: '>' :: (c ++ pClose)) =
      '<' :: 'p' :: '>' :: (c ++ pClose) := by
  rw [subScan_cons_none m hm hu]
  have hre : 'p' :: '>' :: (c ++ pClose) = ('p' :: '>' :: c) ++ pClose := by
    simp
  rw [hre]
  have hna : '<' ∉ 'p' :: '>' :: c := by
    intro hmem
    rcases List.mem_cons.mp hmem with h1 | h2
    · exact absurd h1 (by decide)
    · rcases List.mem_cons.mp h2 with h3 | h4
      · exact absurd h3 (by decide)
      · exact hc h4
  rw [subScan_seg m hm hmne ('p' :: '>' :: c) pClose hna,
    subScan_pClose m hm hmne hct]

lemma findClose_p {c : List Char} (hc : '<' ∉ c) :
    ∀ t, findClose ['p'] (c ++ ('<' :: '/' :: 'p' :: '>' :: t)) = some (c, t) := by
  induction c with
  | nil => intro t; rfl
  | cons x xs ih =>
    intro t
    have hx : x ≠ '<' := by
      intro he
      exact hc (he ▸ List.mem_cons_self x xs)
    rw [List.cons_append]
    simp only [findClose]
    rw [matchCloseTag_ne_lt hx]
    have ihx := ih (fun hmem => hc (List.mem_cons_of_mem x hmem)) t
    rw [ihx]

/-- No `<` in the list is immediately followed by `p`/`P` (so the
paragraph patterns cannot match anywhere). -/
def noPAfterLtB : List Char → Bool
  | [] => true
  | c :: cs =>
    (if c = '<' then
      (match cs with
       | [] => true
       | d :: _ => !(d.toLower = 'p'))
     else true) && noPAfterLtB cs

lemma noPAfterLtB_of_no_lt {s : List Char} (h : '<' ∉ s) :
    noPAfterLtB s = true := by
  induction s with
  | nil => rfl
  | cons c cs ih =>
    have hc : c ≠ '<' := fun he => h (he ▸ List.mem_cons_self c cs)
    simp only [noPAfterLtB, Bool.and_eq_true]
    exact ⟨by rw [if_neg hc], ih fun hmem => h (List.mem_cons_of_mem c hmem)⟩

lemma noPAfterLtB_cons (c : Char) (cs : List Char) :
    noPAfterLtB (c :: cs) =
      ((if c = '<' then
        (match cs with
         | [] => true
         | d :: _ => !(d.toLower = 'p'))
       else true) && noPAfterLtB cs) := rfl

lemma noPAfterLtB_append {x y : List Char} (hx : noPAfterLtB x = true)
    (hy : noPAfterLtB y = true) (hb : x.getLast? ≠ some '<') :
    noPAfterLtB (x ++ y) = true := by
  induction x with
  | nil => exact hy
  | cons c cs ih =>
    rw [noPAfterLtB_cons, Bool.and_eq_true] at hx
    rw [List.cons_append, noPAfterLtB_cons, Bool.and_eq_true]
    cases cs with
    | nil =>
      have hc : c ≠ '<' := by
        intro he
        exact hb (by rw [he]; rfl)
      refine ⟨by rw [if_neg hc], ?_⟩
      simpa using hy
    | cons d ds =>
      have hb2 : (d :: ds).getLast? ≠ some '<' := by
        intro he
        apply hb
        rw [List.getLast?_cons_cons]
        exact he
      refine ⟨?_, ih hx.2 hb2⟩
      have h1 := hx.1
      by_cases hc : c = '<'
      · rw [if_pos hc] at h1 ⊢
        simpa using h1
      · rw [if_neg hc]

lemma digitChar_ne_lt (n : Nat) : Nat.digitChar n ≠ '<' := by
  by_cases h : n < 16
  · interval_cases n <;> decide
  · have hstar : Nat.digitChar n = '*' := by
      rw [Nat.digitChar.eq_def, if_neg (by omega : ¬ n = 0), if_neg (by omega : ¬ n = 1), if_neg (by omega : ¬ n = 2), if_neg (by omega : ¬ n = 3), if_neg (by omega : ¬ n = 4), if_neg (by omega : ¬ n = 5), if_neg (by omega : ¬ n = 6), if_neg (by omega : ¬ n = 7), if_neg (by omega : ¬ n = 8), if_neg (by omega : ¬ n = 9), if_neg (by omega : ¬ n = 10), if_neg (by omega : ¬ n = 11), if_neg (by omega : ¬ n = 12), if_neg (by omega : ¬ n = 13), if_neg (by omega : ¬ n = 14), if_neg (by omega : ¬ n = 15)]
    rw [hstar]
    decide

lemma toDigitsCore_ne_lt :
    ∀ (fuel n : Nat) (ds : List Char), (∀ x ∈ ds, x ≠ '<') →
      ∀ x ∈ Nat.toDigitsCore 10 fuel n ds, x ≠ '<' := by
  intro fuel
  induction fuel with
  | zero => intro n ds hds x hx; exact hds x hx
  | succ fuel ih =>
    intro n ds hds x hx
    simp only [Nat.toDigitsCore] at hx
    have hcons : ∀ y ∈ Nat.digitChar (n % 10) :: ds, y ≠ '<' := by
      intro y hy
      rcases List.mem_cons.mp hy with h1 | h2
      · rw [h1]; exact digitChar_ne_lt _
      · exact hds y h2
    by_cases hz : n / 10 = 0
    · rw [if_pos hz] at hx
      exact hcons x hx
    · rw [if_neg hz] at hx
      exact ih (n / 10) _ hcons x hx

lemma toString_nat_ne_lt (n : Nat) : ∀ x ∈ (toString n).data, x ≠ '<' := by
  show ∀ x ∈ Nat.toDigitsCore 10 (n + 1) n [], x ≠ '<'
  exact toDigitsCore_ne_lt (n + 1) n [] (by intro y hy; simp at hy)

lemma getLast?_ne_of_not_mem {s : List Char} {x : Char} (h : x ∉ s) :
    s.getLast? ≠ some x := by
  intro he
  cases hs : s.getLast? with
  | none => rw [hs] at he; exact absurd he (by simp)
  | some y =>
    rw [hs] at he
    injection he with he2
    have hy : y ∈ s := List.mem_of_getLast?_eq_some hs
    rw [he2] at hy
    exact h hy

lemma noPAfterLtB_digits (n : Nat) : noPAfterLtB (toString n).data = true :=
  noPAfterLtB_of_no_lt fun hmem => toString_nat_ne_lt n '<' hmem rfl

lemma dropWhile_ws_pClose {c : List Char} (hall : ∀ x ∈ c, pyWs x = true) :
    (c ++ pClose).dropWhile pyWs = pClose := by
  rw [dropWhile_append_of_all hall]
  exact List.dropWhile_cons_of_neg (by decide)

lemma dropWhile_not_ws_pClose {c : List Char} (hnot : ¬ ∀ x ∈ c, pyWs x = true) :
    (c ++ pClose).dropWhile pyWs = c.dropWhile pyWs ++ pClose ∧
      c.dropWhile pyWs ≠ [] := by
  have hne : c.dropWhile pyWs ≠ [] := by
    intro he
    apply hnot
    intro x hx
    have hceq : c = c.takeWhile pyWs := by
      conv_lhs => rw [← List.takeWhile_append_dropWhile pyWs c]
      rw [he, List.append_nil]
    rw [hceq] at hx
    exact List.mem_takeWhile_imp hx
  exact ⟨dropWhile_append_of_ne_nil hne, hne⟩

lemma mBlankP_para_ws (n : Nat) {c : List Char} (hall : ∀ x ∈ c, pyWs x = true) :
    mBlankP n ('<' :: 'p' :: '>' :: (c ++ pClose)) = some (spacerHeight n, []) := by
  unfold mBlankP
  rw [show matchTagOpen true ['p'] ('<' :: 'p' :: '>' :: (c ++ pClose)) =
    some ([], c ++ pClose) from rfl]
  dsimp only
  rw [dropWhile_ws_pClose hall]
  rw [show matchCloseTag ['p'] pClose = some [] from rfl]

lemma mBlankP_para_not_ws (n : Nat) {c : List Char} (hc : '<' ∉ c)
    (hnot : ¬ ∀ x ∈ c, pyWs x = true) :
    mBlankP n ('<' :: 'p' :: '>' :: (c ++ pClose)) = none := by
  obtain ⟨hsplit, hne⟩ := dropWhile_not_ws_pClose hnot
  unfold mBlankP
  rw [show matchTagOpen true ['p'] ('<' :: 'p' :: '>' :: (c ++ pClose)) =
    some ([], c ++ pClose) from rfl]
  dsimp only
  rw [hsplit]
  cases hd : c.dropWhile pyWs with
  | nil => exact absurd hd hne
  | cons d ds =>
    have hdmem : d ∈ c := by
      have hmem : d ∈ c.dropWhile pyWs := by
        rw [hd]
        exact List.mem_cons_self _ _
      exact (List.dropWhile_sublist pyWs).subset hmem
    have hdne : d ≠ '<' := fun he => hc (he ▸ hdmem)
    rw [List.cons_append, matchCloseTag_ne_lt hdne]

lemma mParaWrap_para (n : Nat) {c : List Char} (hc : '<' ∉ c) :
    mParaWrap n ('<' :: 'p' :: '>' :: (c ++ pClose)) = some (paraTable c n, []) := by
  unfold mParaWrap
  rw [show matchTagOpen true ['p'] ('<' :: 'p' :: '>' :: (c ++ pClose)) =
    some ([], c ++ pClose) from rfl]
  dsimp only
  rw [show (c ++ pClose : List Char) =
    c ++ ('<' :: '/' :: 'p' :: '>' :: ([] : List Char)) from rfl]
  rw [findClose_p hc []]

lemma mBrRun_para (n : Nat) (X : List Char) :
    mBrRun n ('<' :: 'p' :: X) = none := by
  unfold mBrRun
  rw [brRun_none (show matchBr ('<' :: 'p' :: X) = none from rfl)]
  rw [if_neg (by simp)]

lemma mBrRun_pClose (n : Nat) : mBrRun n pClose = none := by
  unfold mBrRun
  rw [brRun_none (show matchBr pClose = none from rfl)]
  rw [if_neg (by simp)]

lemma mParaWrap_after_lt (n : Nat) : ∀ xs : List Char,
    (match xs with
     | [] => true
     | d :: _ => !(d.toLower = 'p')) = true →
    mParaWrap n ('<' :: xs) = none := by
  intro xs hxs
  unfold mParaWrap
  cases xs with
  | nil => rfl
  | cons d dr =>
    have hd : ¬ (d.toLower = 'p') := by simpa using hxs
    have hsw : startsWithCI ['p'] (d :: dr) = none := by
      unfold startsWithCI
      rw [if_neg hd]
    have hop : matchTagOpen true ['p'] ('<' :: d :: dr) = none := by
      simp only [matchTagOpen, hsw]
      rfl
    rw [hop]

lemma subScan_mParaWrap_noP (n : Nat) :
    ∀ s, noPAfterLtB s = true →
      subScan (mParaWrap n) (mParaWrap_lt n) s = s := by
  intro s
  induction s with
  | nil => intro _; exact subScan_nil _ _
  | cons x xs ih =>
    intro hs
    rw [noPAfterLtB_cons, Bool.and_eq_true] at hs
    by_cases hx : x = '<'
    · have h1 := hs.1
      rw [if_pos hx] at h1
      subst hx
      rw [subScan_cons_none _ _ (mParaWrap_after_lt n xs h1), ih hs.2]
    · rw [subScan_cons_none _ _ (mParaWrap_ne_lt n hx), ih hs.2]

lemma noP_spacer (n : Nat) : noPAfterLtB (spacerHeight n) = true := by
  unfold spacerHeight
  rw [List.append_assoc]
  apply noPAfterLtB_append
  · decide
  · apply noPAfterLtB_append
    · exact noPAfterLtB_digits n
    · decide
    · exact getLast?_ne_of_not_mem
        fun hmem => toString_nat_ne_lt n '<' hmem rfl
  · decide

end RendererLemmas

/-- C5: on input consisting of a single paragraph-like block `<p>…</p>`
whose inner content contains no `<`, the renderer emits exactly the
two-row construct — a content row carrying the inner content at
line-height 1.35 with the sans-serif stack, followed by one spacer row
of height `spacingUnit` — when the content is non-empty, and exactly
one spacer row of height `spacingUnit` with no content row when the
block is empty (whitespace-only), in both cases wrapped once in the
document shell.  In particular `render(fragment, 12)` on one non-empty
paragraph yields one content row followed by one spacer row of
height 12. -/
theorem c5_render_single_paragraph (c : List Char) (sp : Int) (hc : '<' ∉ c) :
    build_outlook_safe_html (String.mk ('<' :: 'p' :: '>' :: (c ++ pClose))) sp =
      (if c.all pyWs then
        String.mk (shellA.data ++ spacerHeight (max 0 sp).toNat ++ shellB.data)
      else
        String.mk (shellA.data ++ paraTable c (max 0 sp).toNat ++ shellB.data)) := by
  have hnpc : '<' ∉ 'p' :: '>' :: c := by
    intro hmem
    rcases List.mem_cons.mp hmem with h1 | h2
    · exact absurd h1 (by decide)
    · rcases List.mem_cons.mp h2 with h3 | h4
      · exact absurd h3 (by decide)
      · exact hc h4
  have hsb : searchBody ('<' :: 'p' :: '>' :: (c ++ pClose)) = none := by
    rw [show searchBody ('<' :: 'p' :: '>' :: (c ++ pClose)) =
      searchBody ('p' :: '>' :: (c ++ pClose)) from rfl]
    rw [show ('p' :: '>' :: (c ++ pClose)) = ('p' :: '>' :: c) ++ pClose by simp]
    rw [searchBody_seg ('p' :: '>' :: c) pClose hnpc]
    decide
  have hdiv1 : subScan mDivOpen mDivOpen_lt ('<' :: 'p' :: '>' :: (c ++ pClose)) =
      '<' :: 'p' :: '>' :: (c ++ pClose) :=
    subScan_para_id mDivOpen mDivOpen_lt (fun _ _ hx => mDivOpen_ne_lt hx) hc rfl rfl
  have hdiv2 : subScan mDivClose mDivClose_lt ('<' :: 'p' :: '>' :: (c ++ pClose)) =
      '<' :: 'p' :: '>' :: (c ++ pClose) :=
    subScan_para_id mDivClose mDivClose_lt (fun _ _ hx => mDivClose_ne_lt hx) hc rfl rfl
  have hbr : subScan (mBrRun (max 0 sp).toNat) (mBrRun_lt (max 0 sp).toNat)
      ('<' :: 'p' :: '>' :: (c ++ pClose)) = '<' :: 'p' :: '>' :: (c ++ pClose) :=
    subScan_para_id _ _ (fun _ _ hx => mBrRun_ne_lt _ hx) hc
      (mBrRun_para _ _) (mBrRun_pClose _)
  simp only [build_outlook_safe_html]
  rw [hsb]
  dsimp only
  rw [hdiv1, hdiv2, hbr]
  rw [show hasPTag ('<' :: 'p' :: '>' :: (c ++ pClose)) = true from rfl]
  by_cases hws : c.all pyWs
  · have hall : ∀ x ∈ c, pyWs x = true := fun x hx => List.all_eq_true.mp hws x hx
    rw [subScan_cons_some _ _ (mBlankP_para_ws (max 0 sp).toNat hall)]
    rw [subScan_nil, List.append_nil]
    rw [subScan_mParaWrap_noP _ _ (noP_spacer _)]
    rw [show ∀ b : Bool, (b && !true) = false from fun b => by simp]
    rw [if_neg (by decide : ¬ ((false : Bool) = true))]
    rw [if_pos hws]
  · have hnot : ¬ ∀ x ∈ c, pyWs x = true := by
      intro hall
      exact hws (List.all_eq_true.mpr fun x hx => hall x hx)
    have hblank : subScan (mBlankP (max 0 sp).toNat) (mBlankP_lt (max 0 sp).toNat)
        ('<' :: 'p' :: '>' :: (c ++ pClose)) = '<' :: 'p' :: '>' :: (c ++ pClose) :=
      subScan_para_id _ _ (fun _ _ hx => mBlankP_ne_lt _ hx) hc
        (mBlankP_para_not_ws _ hc hnot) rfl
    rw [hblank]
    rw [subScan_cons_some _ _ (mParaWrap_para (max 0 sp).toNat hc)]
    rw [subScan_nil, List.append_nil]
    rw [show ∀ b : Bool, (b && !true) = false from fun b => by simp]
    rw [if_neg (by decide : ¬ ((false : Bool) = true))]
    rw [if_neg hws]

/-- Witness for C5 at the spec's test vector: one non-empty paragraph
(`"Hello"`), spacing 12. -/
theorem c5_render_single_paragraph_witness :
    ('<' ∉ ("Hello").data) ∧
      (build_outlook_safe_html
          (String.mk ('<' :: 'p' :: '>' :: (("Hello").data ++ pClose))) 12 =
        if ("Hello").data.all pyWs then
          String.mk (shellA.data ++ spacerHeight (max 0 (12 : Int)).toNat ++ shellB.data)
        else
          String.mk (shellA.data ++
            paraTable ("Hello").data (max 0 (12 : Int)).toNat ++ shellB.data)) :=
  ⟨by decide, c5_render_single_paragraph ("Hello").data 12 (by decide)⟩

section WorkerDefs

/-- Per-row statuses reported through `status_updated`. -/
inductive RowStatus
  | Pending
  | Sent
  | Failed
deriving DecidableEq

/-- The outbound message assembled by `_send_single_email` (To, CC only
when non-empty, Subject, HTMLBody, Importance = 2 (high),
ReadReceiptRequested, one attachment path). -/
structure Mail where
  toAddr : String
  cc : Option String
  subject : String
  htmlBody : String
  importance : Nat
  readReceipt : Bool
  attachment : String
deriving DecidableEq

/-- Structured log lines; payloads keep the data each message carries. -/
inductive LogMsg
  | connected
  | connectAttemptFailed (attempt : Nat)
  | connectFailed
  | folderError (err : String)
  | stoppedByUser
  | retryingHeader (count : Nat)
  | retryAttempt (k maxR : Nat)
  | stillFailed (count : Nat)
  | noEmail (rowDisplay : Nat)
  | attachmentNotFound (path : String)
  | sentTo (email : String)
  | errorSending (email err : String)
deriving DecidableEq

/-- The worker's externally visible actions: signal emissions, sleeps
and the message submission to the transport. -/
inductive Ev
  | progress (pct : Nat)
  | log (m : LogMsg)
  | status (idx : Nat) (s : RowStatus)
  | sleep (secs : Nat)
  | submitted (m : Mail)
  | finished
deriving DecidableEq

/-- The transport/filesystem outcomes one `_send_single_email` call can
observe; `Except.error e` models a raised COM exception with text `e`. -/
structure SendWorld where
  attachExists : Bool
  startCount : Except String Nat
  constructOk : Except String Unit
  submitOk : Except String Unit
  outboxCount : Nat → Except String Nat
  sentCount : Nat → Except String Nat

/-- Embedding of Python `str.replace` (left-to-right, non-overlapping),
with the fuel set to the scanned length.  (Python's behaviour on an
empty pattern is not used here: the only pattern is `{{fullname}}`.) -/
def pyReplaceF (pat repl : List Char) : Nat → List Char → List Char
  | 0, s => s
  | _ + 1, [] => []
  | fuel + 1, c :: cs =>
    if pat ≠ [] ∧ pat.isPrefixOf (c :: cs) then
      repl ++ pyReplaceF pat repl fuel ((c :: cs).drop pat.length)
    else c :: pyReplaceF pat repl fuel cs

def pyReplace (s pat repl : String) : String :=
  String.mk (pyReplaceF pat.data repl.data s.data.length s.data)

/-- The placeholder token recognised by the engine. -/
def fullnameToken : String := "\x7b\x7bfullname\x7d\x7d"

/-- The pure part of `_send_single_email` steps 3–4: placeholder
expansion (full name in the subject, surname in the body), rendering,
and assembly of the outbound message. -/
def buildMail (row : Row) (subjT bodyT : String) (sp : Int) : Mail :=
  let email := pyStrip row.email
  let cc_value := pyStrip row.cc
  let attachment := pyStrip row.attachmentPath
  let full_name := pyStrip row.fullName
  let surname := get_surname full_name
  { toAddr := email
    cc := if cc_value ≠ "" then some cc_value else none
    subject := pyReplace subjT fullnameToken full_name
    htmlBody := build_outlook_safe_html (pyReplace bodyT fullnameToken surname) sp
    importance := 2
    readReceipt := true
    attachment := attachment }

/-- The delivery-confirmation poll: up to 30 reads of the outbox and
sent-items counters, sleeping 1 second between reads, stopping when the
outbox empties or the sent count exceeds `start`.  An errored read
raises (carrying the sleeps already performed). -/
def pollLoop (w : SendWorld) (start : Nat) : Nat → Nat → Except (String × List Ev) (List Ev)
  | _, 0 => .ok []
  | i, fuel + 1 =>
    match w.outboxCount i with
    | .error e => .error (e, [])
    | .ok ob =>
      if ob = 0 then .ok []
      else
        match w.sentCount i with
        | .error e => .error (e, [])
        | .ok sc =>
          if start < sc then .ok []
          else
            match pollLoop w start (i + 1) fuel with
            | .ok evs => .ok (Ev.sleep 1 :: evs)
            | .error p => .error (p.1, Ev.sleep 1 :: p.2)

/-- `_send_single_email` without its `try`/`except`: the `.error` side
carries the raised exception text and the events already emitted. -/
def sendOneBody (row : Row) (idx : Nat) (subjT bodyT : String) (sp : Int)
    (w : SendWorld) : Except (String × List Ev) (Bool × List Ev) :=
  let email := pyStrip row.email
  let attachment := pyStrip row.attachmentPath
  if email = "" then
    .ok (false, [Ev.status idx .Failed, Ev.log (.noEmail (idx + 2))])
  else if w.attachExists = false then
    .ok (false, [Ev.status idx .Failed, Ev.log (.attachmentNotFound attachment)])
  else
    match w.startCount with
    | .error e => .error (e, [])
    | .ok start =>
      let mail := buildMail row subjT bodyT sp
      match w.constructOk with
      | .error e => .error (e, [])
      | .ok _ =>
        match w.submitOk with
        | .error e => .error (e, [])
        | .ok _ =>
          match pollLoop w start 0 30 with
          | .error p => .error (p.1, Ev.submitted mail :: p.2)
          | .ok evs =>
            .ok (true, Ev.submitted mail ::
              (evs ++ [Ev.status idx .Sent, Ev.log (.sentTo email)]))

/-- `_send_single_email`: the `except` clause converts any raised
exception into a `Failed` status plus an error log line. -/
def sendOne (row : Row) (idx : Nat) (subjT bodyT : String) (sp : Int)
    (w : SendWorld) : Bool × List Ev :=
  match sendOneBody row idx subjT bodyT sp w with
  | .ok r => r
  | .error p =>
    (false, p.2 ++ [Ev.status idx .Failed,
      Ev.log (.errorSending (pyStrip row.email) p.1)])

/-- Predicate selecting status events. -/
def isStatusEv : Ev → Bool
  | .status _ _ => true
  | _ => false

end WorkerDefs

section SendOneLemmas

lemma pollLoop_sleeps {w : SendWorld} {start : Nat} :
    ∀ (fuel i : Nat),
      (∀ evs, pollLoop w start i fuel = .ok evs → ∀ x ∈ evs, x = Ev.sleep 1) ∧
      (∀ p, pollLoop w start i fuel = .error p → ∀ x ∈ p.2, x = Ev.sleep 1) := by
  intro fuel
  induction fuel with
  | zero =>
    intro i
    constructor
    · intro evs h x hx
      simp only [pollLoop] at h
      injection h with h2
      rw [← h2] at hx
      simp at hx
    · intro p h
      simp only [pollLoop] at h
      exact absurd h (by simp)
  | succ fuel ih =>
    intro i
    constructor
    · intro evs h x hx
      simp only [pollLoop] at h
      cases hob : w.outboxCount i with
      | error e => rw [hob] at h; exact absurd h (by simp)
      | ok ob =>
        rw [hob] at h
        dsimp only at h
        by_cases hz : ob = 0
        · rw [if_pos hz] at h
          injection h with h2
          rw [← h2] at hx
          simp at hx
        · rw [if_neg hz] at h
          cases hsc : w.sentCount i with
          | error e => rw [hsc] at h; exact absurd h (by simp)
          | ok sc =>
            rw [hsc] at h
            dsimp only at h
            by_cases hgt : start < sc
            · rw [if_pos hgt] at h
              injection h with h2
              rw [← h2] at hx
              simp at hx
            · rw [if_neg hgt] at h
              cases hrec : pollLoop w start (i + 1) fuel with
              | ok evs2 =>
                rw [hrec] at h
                injection h with h2
                rw [← h2] at hx
                rcases List.mem_cons.mp hx with h3 | h4
                · exact h3
                · exact (ih (i + 1)).1 evs2 hrec x h4
              | error p =>
                rw [hrec] at h
                exact absurd h (by simp)
    · intro p h
      simp only [pollLoop] at h
      cases hob : w.outboxCount i with
      | error e =>
        rw [hob] at h
        injection h with h2
        rw [← h2]
        intro x hx
        simp at hx
      | ok ob =>
        rw [hob] at h
        dsimp only at h
        by_cases hz : ob = 0
        · rw [if_pos hz] at h; exact absurd h (by simp)
        · rw [if_neg hz] at h
          cases hsc : w.sentCount i with
          | error e =>
            rw [hsc] at h
            injection h with h2
            rw [← h2]
            intro x hx
            simp at hx
          | ok sc =>
            rw [hsc] at h
            dsimp only at h
            by_cases hgt : start < sc
            · rw [if_pos hgt] at h; exact absurd h (by simp)
            · rw [if_neg hgt] at h
              cases hrec : pollLoop w start (i + 1) fuel with
              | ok evs2 => rw [hrec] at h; exact absurd h (by simp)
              | error q =>
                rw [hrec] at h
                injection h with h2
                rw [← h2]
                intro x hx
                rcases List.mem_cons.mp hx with h3 | h4
                · exact h3
                · exact (ih (i + 1)).2 q hrec x h4

lemma filter_status_of_sleeps {evs : List Ev}
    (h : ∀ x ∈ evs, x = Ev.sleep 1) : evs.filter isStatusEv = [] := by
  rw [List.filter_eq_nil_iff]
  intro a ha
  rw [h a ha]
  decide

lemma sendOneBody_error_shape {row : Row} {idx : Nat} {subjT bodyT : String}
    {sp : Int} {w : SendWorld} {p : String × List Ev}
    (herr : sendOneBody row idx subjT bodyT sp w = .error p) :
    p.2 = [] ∨ ∃ evs, p.2 = Ev.submitted (buildMail row subjT bodyT sp) :: evs ∧
      ∀ x ∈ evs, x = Ev.sleep 1 := by
  unfold sendOneBody at herr
  by_cases hemail : pyStrip row.email = ""
  · rw [if_pos hemail] at herr
    exact absurd herr (by simp)
  · rw [if_neg hemail] at herr
    by_cases hatt : w.attachExists = false
    · rw [if_pos hatt] at herr
      exact absurd herr (by simp)
    · rw [if_neg hatt] at herr
      cases hst : w.startCount with
      | error e =>
        rw [hst] at herr
        injection herr with h2
        rw [← h2]
        exact Or.inl rfl
      | ok start =>
        rw [hst] at herr
        dsimp only at herr
        cases hco : w.constructOk with
        | error e =>
          rw [hco] at herr
          injection herr with h2
          rw [← h2]
          exact Or.inl rfl
        | ok u =>
          rw [hco] at herr
          dsimp only at herr
          cases hsu : w.submitOk with
          | error e =>
            rw [hsu] at herr
            injection herr with h2
            rw [← h2]
            exact Or.inl rfl
          | ok u2 =>
            rw [hsu] at herr
            dsimp only at herr
            cases hpl : pollLoop w start 0 30 with
            | ok evs => rw [hpl] at herr; exact absurd herr (by simp)
            | error q =>
              rw [hpl] at herr
              injection herr with h2
              rw [← h2]
              exact Or.inr ⟨q.2, rfl, pollLoop_sleeps 30 0 |>.2 q hpl⟩

lemma sendOneBody_ok_shape {row : Row} {idx : Nat} {subjT bodyT : String}
    {sp : Int} {w : SendWorld} {r : Bool × List Ev}
    (hok : sendOneBody row idx subjT bodyT sp w = .ok r) :
    r = (false, [Ev.status idx .Failed, Ev.log (.noEmail (idx + 2))])
    ∨ r = (false, [Ev.status idx .Failed,
        Ev.log (.attachmentNotFound (pyStrip row.attachmentPath))])
    ∨ ∃ evs, r = (true, Ev.submitted (buildMail row subjT bodyT sp) ::
        (evs ++ [Ev.status idx .Sent, Ev.log (.sentTo (pyStrip row.email))])) ∧
        ∀ x ∈ evs, x = Ev.sleep 1 := by
  unfold sendOneBody at hok
  by_cases hemail : pyStrip row.email = ""
  · rw [if_pos hemail] at hok
    injection hok with h2
    exact Or.inl h2.symm
  · rw [if_neg hemail] at hok
    by_cases hatt : w.attachExists = false
    · rw [if_pos hatt] at hok
      injection hok with h2
      exact Or.inr (Or.inl h2.symm)
    · rw [if_neg hatt] at hok
      cases hst : w.startCount with
      | error e => rw [hst] at hok; exact absurd hok (by simp)
      | ok start =>
        rw [hst] at hok
        dsimp only at hok
        cases hco : w.constructOk with
        | error e => rw [hco] at hok; exact absurd hok (by simp)
        | ok u =>
          rw [hco] at hok
          dsimp only at hok
          cases hsu : w.submitOk with
          | error e => rw [hsu] at hok; exact absurd hok (by simp)
          | ok u2 =>
            rw [hsu] at hok
            dsimp only at hok
            cases hpl : pollLoop w start 0 30 with
            | error q => rw [hpl] at hok; exact absurd hok (by simp)
            | ok evs =>
              rw [hpl] at hok
              injection hok with h2
              exact Or.inr (Or.inr ⟨evs, h2.symm,
                pollLoop_sleeps 30 0 |>.1 evs hpl⟩)

lemma sendOneBody_ok_status {row : Row} {idx : Nat} {subjT bodyT : String}
    {sp : Int} {w : SendWorld} {r : Bool × List Ev}
    (hok : sendOneBody row idx subjT bodyT sp w = .ok r) :
    r.2.filter isStatusEv =
      [Ev.status idx (if r.1 then RowStatus.Sent else RowStatus.Failed)] := by
  unfold sendOneBody at hok
  by_cases hemail : pyStrip row.email = ""
  · rw [if_pos hemail] at hok
    injection hok with h2
    rw [← h2]
    rfl
  · rw [if_neg hemail] at hok
    by_cases hatt : w.attachExists = false
    · rw [if_pos hatt] at hok
      injection hok with h2
      rw [← h2]
      rfl
    · rw [if_neg hatt] at hok
      cases hst : w.startCount with
      | error e => rw [hst] at hok; exact absurd hok (by simp)
      | ok start =>
        rw [hst] at hok
        dsimp only at hok
        cases hco : w.constructOk with
        | error e => rw [hco] at hok; exact absurd hok (by simp)
        | ok u =>
          rw [hco] at hok
          dsimp only at hok
          cases hsu : w.submitOk with
          | error e => rw [hsu] at hok; exact absurd hok (by simp)
          | ok u2 =>
            rw [hsu] at hok
            dsimp only at hok
            cases hpl : pollLoop w start 0 30 with
            | error p => rw [hpl] at hok; exact absurd hok (by simp)
            | ok evs =>
              rw [hpl] at hok
              injection hok with h2
              rw [← h2]
              show (Ev.submitted (buildMail row subjT bodyT sp) ::
                (evs ++ [Ev.status idx .Sent,
                  Ev.log (.sentTo (pyStrip row.email))])).filter isStatusEv = _
              rw [List.filter_cons_of_neg (by simp [isStatusEv]), List.filter_append,
                filter_status_of_sleeps (pollLoop_sleeps 30 0 |>.1 evs hpl)]
              rfl

lemma sendOneBody_error_no_status {row : Row} {idx : Nat} {subjT bodyT : String}
    {sp : Int} {w : SendWorld} {p : String × List Ev}
    (herr : sendOneBody row idx subjT bodyT sp w = .error p) :
    p.2.filter isStatusEv = [] := by
  unfold sendOneBody at herr
  by_cases hemail : pyStrip row.email = ""
  · rw [if_pos hemail] at herr
    exact absurd herr (by simp)
  · rw [if_neg hemail] at herr
    by_cases hatt : w.attachExists = false
    · rw [if_pos hatt] at herr
      exact absurd herr (by simp)
    · rw [if_neg hatt] at herr
      cases hst : w.startCount with
      | error e =>
        rw [hst] at herr
        injection herr with h2
        rw [← h2]
        rfl
      | ok start =>
        rw [hst] at herr
        dsimp only at herr
        cases hco : w.constructOk with
        | error e =>
          rw [hco] at herr
          injection herr with h2
          rw [← h2]
          rfl
        | ok u =>
          rw [hco] at herr
          dsimp only at herr
          cases hsu : w.submitOk with
          | error e =>
            rw [hsu] at herr
            injection herr with h2
            rw [← h2]
            rfl
          | ok u2 =>
            rw [hsu] at herr
            dsimp only at herr
            cases hpl : pollLoop w start 0 30 with
            | ok evs => rw [hpl] at herr; exact absurd herr (by simp)
            | error q =>
              rw [hpl] at herr
              injection herr with h2
              rw [← h2]
              show (Ev.submitted (buildMail row subjT bodyT sp) :: q.2).filter
                isStatusEv = []
              rw [List.filter_cons_of_neg (by simp [isStatusEv]),
                filter_status_of_sleeps (pollLoop_sleeps 30 0 |>.2 q hpl)]

lemma sendOne_filter_status (row : Row) (idx : Nat) (subjT bodyT : String)
    (sp : Int) (w : SendWorld) :
    (sendOne row idx subjT bodyT sp w).2.filter isStatusEv =
      [Ev.status idx
        (if (sendOne row idx subjT bodyT sp w).1 then RowStatus.Sent
         else RowStatus.Failed)] := by
  unfold sendOne
  cases hb : sendOneBody row idx subjT bodyT sp w with
  | ok r => exact sendOneBody_ok_status hb
  | error p =>
    dsimp only
    rw [List.filter_append, sendOneBody_error_no_status hb]
    rfl

end SendOneLemmas

/-- C1: `_send_single_email` always returns a definite success/failure
result, emitting exactly one status event for its row that matches the
result; any exception raised by the count read, the message
construction, the submission or the confirmation poll (steps 2–5) is
caught and converted into a failure result plus an error log line — it
never propagates out. -/
theorem c1_send_one_never_raises (row : Row) (idx : Nat) (subjT bodyT : String)
    (sp : Int) (w : SendWorld) :
    ((sendOne row idx subjT bodyT sp w).2.filter isStatusEv =
      [Ev.status idx
        (if (sendOne row idx subjT bodyT sp w).1 then RowStatus.Sent
         else RowStatus.Failed)])
    ∧ (∀ e evs, sendOneBody row idx subjT bodyT sp w = .error (e, evs) →
        sendOne row idx subjT bodyT sp w =
          (false, evs ++ [Ev.status idx .Failed,
            Ev.log (.errorSending (pyStrip row.email) e)]))
    ∧ (pyStrip row.email ≠ "" → w.attachExists = true →
        ((∀ e, w.startCount = .error e →
            sendOneBody row idx subjT bodyT sp w = .error (e, []))
          ∧ (∀ n e, w.startCount = .ok n → w.constructOk = .error e →
              sendOneBody row idx subjT bodyT sp w = .error (e, []))
          ∧ (∀ n e, w.startCount = .ok n → w.constructOk = .ok () →
              w.submitOk = .error e →
              sendOneBody row idx subjT bodyT sp w = .error (e, []))
          ∧ (∀ n e, w.startCount = .ok n → w.constructOk = .ok () →
              w.submitOk = .ok () → w.outboxCount 0 = .error e →
              sendOneBody row idx subjT bodyT sp w =
                .error (e, [Ev.submitted (buildMail row subjT bodyT sp)])))) := by
  refine ⟨?_, ?_, ?_⟩
  · exact sendOne_filter_status row idx subjT bodyT sp w
  · intro e evs hb
    unfold sendOne
    rw [hb]
  · intro hemail hatt
    have hattf : ¬ (w.attachExists = false) := by
      rw [hatt]
      decide
    refine ⟨?_, ?_, ?_, ?_⟩
    · intro e hst
      unfold sendOneBody
      rw [if_neg hemail, if_neg hattf, hst]
    · intro n e hst hco
      unfold sendOneBody
      rw [if_neg hemail, if_neg hattf, hst]
      dsimp only
      rw [hco]
    · intro n e hst hco hsu
      unfold sendOneBody
      rw [if_neg hemail, if_neg hattf, hst]
      dsimp only
      rw [hco]
      dsimp only
      rw [hsu]
    · intro n e hst hco hsu hob
      unfold sendOneBody
      rw [if_neg hemail, if_neg hattf, hst]
      dsimp only
      rw [hco]
      dsimp only
      rw [hsu]
      dsimp only
      rw [show pollLoop w n 0 30 = .error (e, []) from by
        simp only [pollLoop]
        rw [hob]]

/-- Witness for C1: a world whose sent-count read raises. -/
theorem c1_send_one_never_raises_witness :
    (pyStrip (Row.email ⟨"N", "a@b.co", "", "p"⟩) ≠ "" ∧
      SendWorld.attachExists
        ⟨true, .error "boom", .ok (), .ok (), fun _ => .ok 0, fun _ => .ok 0⟩ = true) ∧
    sendOneBody ⟨"N", "a@b.co", "", "p"⟩ 0 "s" "b" 0
        ⟨true, .error "boom", .ok (), .ok (), fun _ => .ok 0, fun _ => .ok 0⟩ =
      .error ("boom", []) ∧
    sendOne ⟨"N", "a@b.co", "", "p"⟩ 0 "s" "b" 0
        ⟨true, .error "boom", .ok (), .ok (), fun _ => .ok 0, fun _ => .ok 0⟩ =
      (false, [Ev.status 0 .Failed,
        Ev.log (.errorSending (pyStrip (Row.email ⟨"N", "a@b.co", "", "p"⟩)) "boom")]) := by
  refine ⟨⟨by decide, rfl⟩, ?_⟩
  have hbody :=
    (c1_send_one_never_raises ⟨"N", "a@b.co", "", "p"⟩ 0 "s" "b" 0
        ⟨true, .error "boom", .ok (), .ok (), fun _ => .ok 0, fun _ => .ok 0⟩).2.2
      (by decide) rfl |>.1 "boom" rfl
  refine ⟨hbody, ?_⟩
  have hcaught :=
    (c1_send_one_never_raises ⟨"N", "a@b.co", "", "p"⟩ 0 "s" "b" 0
        ⟨true, .error "boom", .ok (), .ok (), fun _ => .ok 0, fun _ => .ok 0⟩).2.1
      "boom" [] hbody
  simpa using hcaught

/-- C6 counterexample: the subject does not receive the recipient's
`fullName` verbatim — the code strips surrounding whitespace first, so
for `fullName = " Juan "` the expanded subject differs from the
verbatim replacement. -/
theorem c6_counterexample :
    (buildMail ⟨" Juan ", "a@b.co", "", "p"⟩ fullnameToken "" 0).subject ≠
      pyReplace fullnameToken fullnameToken " Juan " := by decide

/-- C6 (amended): subject expansion replaces every `{{fullname}}` with
the recipient's `fullName` trimmed of surrounding whitespace (otherwise
verbatim), body expansion replaces it with the derived surname, and the
surname derivation is exactly the spec's rule: the part before the
first comma, trimmed, when a comma is present, otherwise the whole name
trimmed (`deriveSurname("Dela Cruz, Juan") = "Dela Cruz"`,
`deriveSurname("Juan Dela Cruz") = "Juan Dela Cruz"`). -/
theorem c6_placeholder_and_surname :
    (get_surname "Dela Cruz, Juan" = "Dela Cruz"
      ∧ get_surname "Juan Dela Cruz" = "Juan Dela Cruz")
    ∧ (∀ s : String, get_surname s = deriveSurnameSpec s)
    ∧ (∀ (row : Row) (subjT bodyT : String) (sp : Int),
        (buildMail row subjT bodyT sp).subject =
          pyReplace subjT fullnameToken (pyStrip row.fullName)
        ∧ (buildMail row subjT bodyT sp).htmlBody =
            build_outlook_safe_html
              (pyReplace bodyT fullnameToken (get_surname (pyStrip row.fullName))) sp
        ∧ get_surname (pyStrip row.fullName) = deriveSurnameSpec row.fullName) := by
  refine ⟨⟨by decide, by decide⟩, get_surname_eq_spec, ?_⟩
  intro row subjT bodyT sp
  refine ⟨rfl, rfl, ?_⟩
  rw [get_surname_strip, get_surname_eq_spec]

section RunDefs

/-- The environment one worker run interacts with: the five connection
attempts, the folder resolution, one fresh `SendWorld` per
`_send_single_email` call (numbered by call order), and the instant
(counted in reads of the `running` flag) at which a `stop()` request
becomes visible — `none` when the run is never cancelled. -/
structure RunEnv where
  connectOk : Nat → Bool
  folderRes : Except String Unit
  worlds : Nat → SendWorld
  stopAt : Option Nat

/-- The value of `self.running` at the t-th check.  `stop()` only ever
moves the flag from `true` to `false`, so visibility is monotone. -/
def running (env : RunEnv) (t : Nat) : Bool :=
  match env.stopAt with
  | none => true
  | some s => decide (t < s)

/-- Worker-internal counters: `_send_single_email` calls made and
`running` checks performed. -/
structure WSt where
  calls : Nat
  checks : Nat
deriving DecidableEq

def bumpCheck (st : WSt) : WSt := { st with checks := st.checks + 1 }

def bumpCall (st : WSt) : WSt := { st with calls := st.calls + 1 }

/-- The connection loop: up to 5 `Dispatch` attempts, a success log on
the first success, a warning log plus a 3-second sleep after each
failure. -/
def connectLoop (env : RunEnv) : Nat → List Ev × Bool
  | 0 => ([], false)
  | n + 1 =>
    if env.connectOk (5 - (n + 1)) then ([Ev.log .connected], true)
    else
      let rec' := connectLoop env n
      (Ev.log (.connectAttemptFailed (5 - (n + 1) + 1)) :: Ev.sleep 3 :: rec'.1,
        rec'.2)

/-- The first pass: per row, check `running` (stop with a log when
cleared), send, collect failures, bump the processed count and emit the
truncated percentage. -/
def firstPass (env : RunEnv) (subjT bodyT : String) (sp : Int) (total : Nat) :
    List (Nat × Row) → Nat → WSt → List Ev × List (Nat × Row) × WSt
  | [], _, st => ([], [], st)
  | (idx, row) :: rest, processed, st =>
    if running env st.checks = false then
      ([Ev.log .stoppedByUser], [], bumpCheck st)
    else
      let st1 := bumpCheck st
      let res := sendOne row idx subjT bodyT sp (env.worlds st1.calls)
      let st2 := bumpCall st1
      let rec' := firstPass env subjT bodyT sp total rest (processed + 1) st2
      (res.2 ++ Ev.progress ((processed + 1) * 100 / total) :: rec'.1,
        (if res.1 then rec'.2.1 else (idx, row) :: rec'.2.1), rec'.2.2)

/-- One retry pass over the currently-failed rows; a cleared `running`
flag breaks out silently, dropping the unattempted rows from the
still-failed list (as the source's `break` does). -/
def retryInner (env : RunEnv) (subjT bodyT : String) (sp : Int) :
    List (Nat × Row) → WSt → List Ev × List (Nat × Row) × WSt
  | [], st => ([], [], st)
  | (idx, row) :: rest, st =>
    if running env st.checks = false then ([], [], bumpCheck st)
    else
      let st1 := bumpCheck st
      let res := sendOne row idx subjT bodyT sp (env.worlds st1.calls)
      let st2 := bumpCall st1
      let rec' := retryInner env subjT bodyT sp rest st2
      (res.2 ++ rec'.1,
        (if res.1 then rec'.2.1 else (idx, row) :: rec'.2.1), rec'.2.2)

/-- The retry loop: up to `maxR` passes; each iteration first checks
`running` and emptiness, logs the attempt number, runs one pass, and
sleeps 2 seconds when the failure set is still non-empty afterwards. -/
def retryOuter (env : RunEnv) (subjT bodyT : String) (sp : Int) (maxR : Nat) :
    Nat → List (Nat × Row) → WSt → List Ev × List (Nat × Row) × WSt
  | 0, failed, st => ([], failed, st)
  | n + 1, failed, st =>
    if running env st.checks = false ∨ failed = [] then
      ([], failed, bumpCheck st)
    else
      let st1 := bumpCheck st
      let inner := retryInner env subjT bodyT sp failed st1
      let sleepE : List Ev := if inner.2.1 = [] then [] else [Ev.sleep 2]
      let rec' := retryOuter env subjT bodyT sp maxR n inner.2.1 inner.2.2
      (Ev.log (.retryAttempt (maxR - (n + 1) + 1) maxR) :: inner.1 ++
        sleepE ++ rec'.1, rec'.2.1, rec'.2.2)

/-- `EmailWorker.run`: connection, folder resolution, first pass, the
bounded retry loop, the still-failed summary and the unconditional
`finished` signal. -/
def runWorker (env : RunEnv) (rows : List (Nat × Row)) (subjT bodyT : String)
    (sp : Int) (maxR : Nat) : List Ev :=
  let conn := connectLoop env 5
  if conn.2 = false then conn.1 ++ [Ev.log .connectFailed, Ev.finished]
  else
    match env.folderRes with
    | .error e => conn.1 ++ [Ev.log (.folderError e), Ev.finished]
    | .ok _ =>
      let fp := firstPass env subjT bodyT sp rows.length rows 0 ⟨0, 0⟩
      let retryPart :=
        if fp.2.1 ≠ [] ∧ 0 < maxR then
          (Ev.log (.retryingHeader fp.2.1.length) ::
            (retryOuter env subjT bodyT sp maxR maxR fp.2.1 fp.2.2).1,
            (retryOuter env subjT bodyT sp maxR maxR fp.2.1 fp.2.2).2.1)
        else (([] : List Ev), fp.2.1)
      let tailEvs :=
        if retryPart.2 ≠ [] then [Ev.log (.stillFailed retryPart.2.length)]
        else ([] : List Ev)
      conn.1 ++ fp.1 ++ retryPart.1 ++ tailEvs ++ [Ev.finished]

end RunDefs

/-- Predicate selecting progress events. -/
def isProgressEv : Ev → Bool
  | .progress _ => true
  | _ => false

/-- Predicate selecting message submissions. -/
def isSubmitEv : Ev → Bool
  | .submitted _ => true
  | _ => false

/-- Predicate selecting retry-pass log lines. -/
def isRetryLog : Ev → Bool
  | .log (.retryAttempt _ _) => true
  | _ => false

/-- C9: when all five connection attempts fail, the worker logs the
terminal message and fires `finished` exactly once, attempting no row:
no status, progress or submission event is emitted. -/
theorem c9_connect_exhaustion (env : RunEnv) (rows : List (Nat × Row))
    (subjT bodyT : String) (sp : Int) (maxR : Nat)
    (hfail : ∀ i, i < 5 → env.connectOk i = false) :
    (runWorker env rows subjT bodyT sp maxR).filter isStatusEv = []
    ∧ (runWorker env rows subjT bodyT sp maxR).filter isProgressEv = []
    ∧ (runWorker env rows subjT bodyT sp maxR).filter isSubmitEv = []
    ∧ (runWorker env rows subjT bodyT sp maxR).count Ev.finished = 1
    ∧ Ev.log .connectFailed ∈ runWorker env rows subjT bodyT sp maxR := by
  have h0 := hfail 0 (by omega)
  have h1 := hfail 1 (by omega)
  have h2 := hfail 2 (by omega)
  have h3 := hfail 3 (by omega)
  have h4 := hfail 4 (by omega)
  have hconn : connectLoop env 5 =
      ([Ev.log (.connectAttemptFailed 1), Ev.sleep 3,
        Ev.log (.connectAttemptFailed 2), Ev.sleep 3,
        Ev.log (.connectAttemptFailed 3), Ev.sleep 3,
        Ev.log (.connectAttemptFailed 4), Ev.sleep 3,
        Ev.log (.connectAttemptFailed 5), Ev.sleep 3], false) := by
    simp [connectLoop, h0, h1, h2, h3, h4]
  simp only [runWorker]
  rw [hconn]
  dsimp only
  rw [if_pos rfl]
  decide

/-- Witness for C9 at a concrete never-connecting environment. -/
theorem c9_connect_exhaustion_witness :
    (∀ i, i < 5 →
      RunEnv.connectOk
        ⟨fun _ => false, .ok (),
          fun _ => ⟨true, .ok 0, .ok (), .ok (), fun _ => .ok 0, fun _ => .ok 0⟩,
          none⟩ i = false)
    ∧ ((runWorker
        ⟨fun _ => false, .ok (),
          fun _ => ⟨true, .ok 0, .ok (), .ok (), fun _ => .ok 0, fun _ => .ok 0⟩,
          none⟩ [(0, ⟨"N", "a@b.co", "", "p"⟩)] "s" "b" 0 3).filter isStatusEv = []
      ∧ (runWorker
        ⟨fun _ => false, .ok (),
          fun _ => ⟨true, .ok 0, .ok (), .ok (), fun _ => .ok 0, fun _ => .ok 0⟩,
          none⟩ [(0, ⟨"N", "a@b.co", "", "p"⟩)] "s" "b" 0 3).filter isProgressEv = []
      ∧ (runWorker
        ⟨fun _ => false, .ok (),
          fun _ => ⟨true, .ok 0, .ok (), .ok (), fun _ => .ok 0, fun _ => .ok 0⟩,
          none⟩ [(0, ⟨"N", "a@b.co", "", "p"⟩)] "s" "b" 0 3).filter isSubmitEv = []
      ∧ (runWorker
        ⟨fun _ => false, .ok (),
          fun _ => ⟨true, .ok 0, .ok (), .ok (), fun _ => .ok 0, fun _ => .ok 0⟩,
          none⟩ [(0, ⟨"N", "a@b.co", "", "p"⟩)] "s" "b" 0 3).count Ev.finished = 1
      ∧ Ev.log .connectFailed ∈ runWorker
        ⟨fun _ => false, .ok (),
          fun _ => ⟨true, .ok 0, .ok (), .ok (), fun _ => .ok 0, fun _ => .ok 0⟩,
          none⟩ [(0, ⟨"N", "a@b.co", "", "p"⟩)] "s" "b" 0 3) :=
  ⟨fun _ _ => rfl,
    c9_connect_exhaustion _ [(0, ⟨"N", "a@b.co", "", "p"⟩)] "s" "b" 0 3
      fun _ _ => rfl⟩

/-- Events that a single send can emit: no retry-pass log, no
`finished`, no `Pending` status. -/
def benignEv : Ev → Bool
  | .log (.retryAttempt _ _) => false
  | .finished => false
  | .status _ .Pending => false
  | _ => true

lemma sendOne_benign (row : Row) (idx : Nat) (subjT bodyT : String) (sp : Int)
    (w : SendWorld) :
    ∀ e ∈ (sendOne row idx subjT bodyT sp w).2, benignEv e = true := by
  intro e he
  unfold sendOne at he
  cases hb : sendOneBody row idx subjT bodyT sp w with
  | ok r =>
    rw [hb] at he
    rcases sendOneBody_ok_shape hb with h1 | h2 | ⟨evs, h3, hsl⟩
    · rw [h1] at he
      rcases List.mem_cons.mp he with h | h
      · rw [h]; rfl
      · simp at h
        rw [h]; rfl
    · rw [h2] at he
      rcases List.mem_cons.mp he with h | h
      · rw [h]; rfl
      · simp at h
        rw [h]; rfl
    · rw [h3] at he
      dsimp only at he
      rcases List.mem_cons.mp he with h | h
      · rw [h]; rfl
      · rcases List.mem_append.mp h with h4 | h4
        · rw [hsl e h4]; rfl
        · rcases List.mem_cons.mp h4 with h5 | h5
          · rw [h5]; rfl
          · simp at h5
            rw [h5]; rfl
  | error p =>
    rw [hb] at he
    dsimp only at he
    rcases List.mem_append.mp he with h | h
    · rcases sendOneBody_error_shape hb with h1 | ⟨evs, h2, hsl⟩
      · rw [h1] at h; simp at h
      · rw [h2] at h
        rcases List.mem_cons.mp h with h3 | h3
        · rw [h3]; rfl
        · rw [hsl e h3]; rfl
    · rcases List.mem_cons.mp h with h3 | h3
      · rw [h3]; rfl
      · simp at h3
        rw [h3]; rfl

/-- C2 counterexample: a one-row batch that always fails with
`maxRetries = 1` performs exactly one retry pass, yet the trace
contains one 2-second sleep — the code sleeps after the last pass when
failures remain, contradicting "but not after the last pass". -/
theorem c2_counterexample :
    (runWorker
        ⟨fun _ => true, .ok (),
          fun _ => ⟨true, .ok 0, .ok (), .ok (), fun _ => .ok 0, fun _ => .ok 0⟩,
          none⟩ [(0, ⟨"N", "", "", "p"⟩)] "s" "b" 0 1).countP isRetryLog = 1
    ∧ (runWorker
        ⟨fun _ => true, .ok (),
          fun _ => ⟨true, .ok 0, .ok (), .ok (), fun _ => .ok 0, fun _ => .ok 0⟩,
          none⟩ [(0, ⟨"N", "", "", "p"⟩)] "s" "b" 0 1).count (Ev.sleep 2) = 1 := by
  decide

/-- One retry pass in the specification's words: attempt each
still-failed row (call numbering continued), keep the ones that fail. -/
def passSpec (env : RunEnv) (subjT bodyT : String) (sp : Int) :
    List (Nat × Row) → Nat → List Ev × List (Nat × Row) × Nat
  | [], calls => ([], [], calls)
  | (idx, row) :: rest, calls =>
    let res := sendOne row idx subjT bodyT sp (env.worlds calls)
    let rec' := passSpec env subjT bodyT sp rest (calls + 1)
    (res.2 ++ rec'.1,
      (if res.1 then rec'.2.1 else (idx, row) :: rec'.2.1), rec'.2.2)

/-- Modelled from the spec's amended retry contract: up to `maxR`
passes over only the currently-failed rows, stopping when the set
empties, sleeping 2 seconds after every pass that leaves failures
(including the last). -/
def retrySpec (env : RunEnv) (subjT bodyT : String) (sp : Int) (maxR : Nat) :
    Nat → List (Nat × Row) → Nat → List Ev × List (Nat × Row) × Nat
  | 0, failed, calls => ([], failed, calls)
  | n + 1, failed, calls =>
    if failed = [] then ([], failed, calls)
    else
      let pass := passSpec env subjT bodyT sp failed calls
      let sleepE : List Ev := if pass.2.1 = [] then [] else [Ev.sleep 2]
      let rec' := retrySpec env subjT bodyT sp maxR n pass.2.1 pass.2.2
      (Ev.log (.retryAttempt (maxR - (n + 1) + 1) maxR) :: pass.1 ++
        sleepE ++ rec'.1, rec'.2.1, rec'.2.2)

lemma running_none {env : RunEnv} (hstop : env.stopAt = none) (t : Nat) :
    running env t = true := by
  unfold running
  rw [hstop]

lemma retryInner_no_cancel {env : RunEnv} (hstop : env.stopAt = none)
    (subjT bodyT : String) (sp : Int) :
    ∀ (l : List (Nat × Row)) (st : WSt),
      retryInner env subjT bodyT sp l st =
        ((passSpec env subjT bodyT sp l st.calls).1,
          (passSpec env subjT bodyT sp l st.calls).2.1,
          ⟨(passSpec env subjT bodyT sp l st.calls).2.2, st.checks + l.length⟩) := by
  intro l
  induction l with
  | nil =>
    intro st
    simp [retryInner, passSpec]
  | cons hd tl ih =>
    obtain ⟨idx, row⟩ := hd
    intro st
    simp only [retryInner, passSpec]
    rw [if_neg (by rw [running_none hstop]; decide)]
    rw [ih]
    simp only [bumpCheck, bumpCall]
    refine congrArg₂ Prod.mk rfl (congrArg₂ Prod.mk rfl ?_)
    simp only [List.length_cons]
    congr 1
    omega

lemma retryOuter_spec_eq {env : RunEnv} (hstop : env.stopAt = none)
    (subjT bodyT : String) (sp : Int) (maxR : Nat) :
    ∀ (n : Nat) (failed : List (Nat × Row)) (st : WSt),
      (retryOuter env subjT bodyT sp maxR n failed st).1 =
        (retrySpec env subjT bodyT sp maxR n failed st.calls).1
      ∧ (retryOuter env subjT bodyT sp maxR n failed st).2.1 =
        (retrySpec env subjT bodyT sp maxR n failed st.calls).2.1 := by
  intro n
  induction n with
  | zero => intro failed st; exact ⟨rfl, rfl⟩
  | succ n ih =>
    intro failed st
    by_cases hf : failed = []
    · simp only [retryOuter, retrySpec]
      rw [if_pos (Or.inr hf), if_pos hf]
      exact ⟨rfl, rfl⟩
    · simp only [retryOuter, retrySpec]
      rw [if_neg (by
        rw [running_none hstop]
        simp [hf]), if_neg hf]
      dsimp only
      rw [retryInner_no_cancel hstop]
      simp only [bumpCheck]
      obtain ⟨ih1, ih2⟩ := ih (passSpec env subjT bodyT sp failed st.calls).2.1
        ⟨(passSpec env subjT bodyT sp failed st.calls).2.2,
          st.checks + 1 + failed.length⟩
      constructor
      · rw [ih1]
      · rw [ih2]

lemma isRetryLog_of_benign {e : Ev} (h : benignEv e = true) :
    isRetryLog e = false := by
  cases e with
  | progress p => rfl
  | log m =>
    cases m with
    | retryAttempt k mm => simp [benignEv] at h
    | connected => rfl
    | connectAttemptFailed a => rfl
    | connectFailed => rfl
    | folderError e => rfl
    | stoppedByUser => rfl
    | retryingHeader c => rfl
    | stillFailed c => rfl
    | noEmail r => rfl
    | attachmentNotFound p => rfl
    | sentTo e => rfl
    | errorSending e f => rfl
  | status i s => rfl
  | sleep n => rfl
  | submitted m => rfl
  | finished => exact absurd h (by decide)

lemma retryInner_benign (env : RunEnv) (subjT bodyT : String) (sp : Int) :
    ∀ (l : List (Nat × Row)) (st : WSt) (e : Ev),
      e ∈ (retryInner env subjT bodyT sp l st).1 → benignEv e = true := by
  intro l
  induction l with
  | nil => intro st e he; simp [retryInner] at he
  | cons hd tl ih =>
    obtain ⟨idx, row⟩ := hd
    intro st e he
    simp only [retryInner] at he
    by_cases hr : running env st.checks = false
    · rw [if_pos hr] at he
      simp at he
    · rw [if_neg hr] at he
      dsimp only at he
      rcases List.mem_append.mp he with h | h
      · exact sendOne_benign row idx subjT bodyT sp _ e h
      · exact ih _ e h

lemma firstPass_benign (env : RunEnv) (subjT bodyT : String) (sp : Int)
    (total : Nat) :
    ∀ (l : List (Nat × Row)) (processed : Nat) (st : WSt) (e : Ev),
      e ∈ (firstPass env subjT bodyT sp total l processed st).1 →
        benignEv e = true := by
  intro l
  induction l with
  | nil => intro processed st e he; simp [firstPass] at he
  | cons hd tl ih =>
    obtain ⟨idx, row⟩ := hd
    intro processed st e he
    simp only [firstPass] at he
    by_cases hr : running env st.checks = false
    · rw [if_pos hr] at he
      simp at he
      rw [he]
      rfl
    · rw [if_neg hr] at he
      dsimp only at he
      rcases List.mem_append.mp he with h | h
      · exact sendOne_benign row idx subjT bodyT sp _ e h
      · rcases List.mem_cons.mp h with h2 | h2
        · rw [h2]; rfl
        · exact ih _ _ e h2

lemma retryOuter_benign (env : RunEnv) (subjT bodyT : String) (sp : Int)
    (maxR : Nat) :
    ∀ (n : Nat) (failed : List (Nat × Row)) (st : WSt) (e : Ev),
      e ∈ (retryOuter env subjT bodyT sp maxR n failed st).1 →
        benignEv e = true ∨ isRetryLog e = true := by
  intro n
  induction n with
  | zero => intro failed st e he; simp [retryOuter] at he
  | succ n ih =>
    intro failed st e he
    simp only [retryOuter] at he
    by_cases hc : running env st.checks = false ∨ failed = []
    · rw [if_pos hc] at he
      simp at he
    · rw [if_neg hc] at he
      dsimp only at he
      rcases List.mem_append.mp he with h | h3
      · rcases List.mem_append.mp h with h1 | hs
        · rcases List.mem_cons.mp h1 with hl | h2
          · right
            rw [hl]
            rfl
          · exact Or.inl (retryInner_benign env subjT bodyT sp failed _ e h2)
        · left
          by_cases hi : (retryInner env subjT bodyT sp failed (bumpCheck st)).2.1 = []
          · rw [if_pos hi] at hs; simp at hs
          · rw [if_neg hi] at hs
            simp at hs
            rw [hs]
            rfl
      · exact ih _ _ e h3

lemma retryOuter_count_le (env : RunEnv) (subjT bodyT : String) (sp : Int)
    (maxR : Nat) :
    ∀ (n : Nat) (failed : List (Nat × Row)) (st : WSt),
      (retryOuter env subjT bodyT sp maxR n failed st).1.countP isRetryLog ≤ n := by
  intro n
  induction n with
  | zero => intro failed st; simp [retryOuter]
  | succ n ih =>
    intro failed st
    simp only [retryOuter]
    by_cases hc : running env st.checks = false ∨ failed = []
    · rw [if_pos hc]
      simp
    · rw [if_neg hc]
      dsimp only
      have hinner : (retryInner env subjT bodyT sp failed
          (bumpCheck st)).1.countP isRetryLog = 0 := by
        rw [List.countP_eq_zero]
        intro e he
        rw [isRetryLog_of_benign (retryInner_benign env subjT bodyT sp failed _ e he)]
        decide
      have hsleep : (if (retryInner env subjT bodyT sp failed
          (bumpCheck st)).2.1 = [] then ([] : List Ev)
          else [Ev.sleep 2]).countP isRetryLog = 0 := by
        by_cases hi : (retryInner env subjT bodyT sp failed (bumpCheck st)).2.1 = []
        · rw [if_pos hi]; rfl
        · rw [if_neg hi]; rfl
      have hrec := ih (retryInner env subjT bodyT sp failed (bumpCheck st)).2.1
        (retryInner env subjT bodyT sp failed (bumpCheck st)).2.2
      have hlog : isRetryLog (Ev.log (.retryAttempt (maxR - (n + 1) + 1) maxR)) = true := rfl
      rw [List.countP_append, List.countP_append, List.countP_cons, hinner,
        hsleep, hlog]
      rw [if_pos rfl]
      omega

/-- C2 (amended): the retry loop performs at most `maxRetries` passes
(counted by its per-pass attempt logs), re-attempting only the
currently-failed rows and dropping the ones that succeed; absent
cancellation its event trace and final failure set are exactly those of
the pass-by-pass specification `retrySpec`, which stops when the failure
set empties and sleeps 2 seconds after every pass that still leaves
failures — including the last one. -/
theorem c2_amended_bounded_retry (env : RunEnv) (subjT bodyT : String)
    (sp : Int) (maxR : Nat) (failed : List (Nat × Row)) (st : WSt)
    (hstop : env.stopAt = none) :
    (retryOuter env subjT bodyT sp maxR maxR failed st).1.countP isRetryLog
        ≤ maxR
    ∧ (retryOuter env subjT bodyT sp maxR maxR failed st).1 =
        (retrySpec env subjT bodyT sp maxR maxR failed st.calls).1
    ∧ (retryOuter env subjT bodyT sp maxR maxR failed st).2.1 =
        (retrySpec env subjT bodyT sp maxR maxR failed st.calls).2.1 :=
  ⟨retryOuter_count_le env subjT bodyT sp maxR maxR failed st,
    (retryOuter_spec_eq hstop subjT bodyT sp maxR maxR failed st).1,
    (retryOuter_spec_eq hstop subjT bodyT sp maxR maxR failed st).2⟩

/-- Witness for the amended C2 theorem on a concrete always-failing
one-row environment with one retry pass. -/
theorem c2_amended_bounded_retry_witness :
    (retryOuter
        ⟨fun _ => true, .ok (),
          fun _ => ⟨true, .ok 0, .ok (), .ok (), fun _ => .ok 0, fun _ => .ok 0⟩,
          none⟩ "s" "b" 0 1 1 [(0, ⟨"N", "", "", "p"⟩)] ⟨0, 0⟩).1.countP
        isRetryLog ≤ 1
    ∧ (retryOuter
        ⟨fun _ => true, .ok (),
          fun _ => ⟨true, .ok 0, .ok (), .ok (), fun _ => .ok 0, fun _ => .ok 0⟩,
          none⟩ "s" "b" 0 1 1 [(0, ⟨"N", "", "", "p"⟩)] ⟨0, 0⟩).1 =
        (retrySpec
        ⟨fun _ => true, .ok (),
          fun _ => ⟨true, .ok 0, .ok (), .ok (), fun _ => .ok 0, fun _ => .ok 0⟩,
          none⟩ "s" "b" 0 1 1 [(0, ⟨"N", "", "", "p"⟩)] 0).1
    ∧ (retryOuter
        ⟨fun _ => true, .ok (),
          fun _ => ⟨true, .ok 0, .ok (), .ok (), fun _ => .ok 0, fun _ => .ok 0⟩,
          none⟩ "s" "b" 0 1 1 [(0, ⟨"N", "", "", "p"⟩)] ⟨0, 0⟩).2.1 =
        (retrySpec
        ⟨fun _ => true, .ok (),
          fun _ => ⟨true, .ok 0, .ok (), .ok (), fun _ => .ok 0, fun _ => .ok 0⟩,
          none⟩ "s" "b" 0 1 1 [(0, ⟨"N", "", "", "p"⟩)] 0).2.1 :=
  c2_amended_bounded_retry _ "s" "b" 0 1 [(0, ⟨"N", "", "", "p"⟩)] ⟨0, 0⟩ rfl

/-- Witness for C8 on a two-row batch whose first address is blank. -/
theorem c8_empty_rejected_but_batch_keeps_witness :
    ((0, (⟨"A", "  ", "", "p"⟩ : Row)) ∈
        ([⟨"A", "  ", "", "p"⟩, ⟨"B", "b@c.de", "", "p"⟩] : List Row).enum ∧
      pyStrip (Row.email ⟨"A", "  ", "", "p"⟩) = "") ∧
    ((0, (⟨"A", "  ", "", "p"⟩ : Row)) ∈
        (validate_emails_in_dataframe [⟨"A", "  ", "", "p"⟩, ⟨"B", "b@c.de", "", "p"⟩]).1 ∧
      ∀ entry ∈ (validate_emails_in_dataframe
          [⟨"A", "  ", "", "p"⟩, ⟨"B", "b@c.de", "", "p"⟩]).2, entry.row ≠ 0 + 2) :=
  ⟨⟨by decide, by decide⟩,
    (c8_empty_rejected_but_batch_keeps.2
      [⟨"A", "  ", "", "p"⟩, ⟨"B", "b@c.de", "", "p"⟩] 0 ⟨"A", "  ", "", "p"⟩
      (by decide) (by decide))⟩

/-- Predicate selecting status events for the row labelled `i`. -/
def isStatusFor (i : Nat) : Ev → Bool
  | .status j _ => decide (j = i)
  | _ => false

/-- The status events the first pass emits for a list of rows, one per
row, `Sent` or `Failed` according to `sendOne` on the per-call world. -/
def fpStatuses (env : RunEnv) (subjT bodyT : String) (sp : Int) :
    List (Nat × Row) → Nat → List Ev
  | [], _ => []
  | (idx, row) :: rest, calls =>
    Ev.status idx
        (if (sendOne row idx subjT bodyT sp (env.worlds calls)).1
         then RowStatus.Sent else RowStatus.Failed) ::
      fpStatuses env subjT bodyT sp rest (calls + 1)

lemma running_some {env : RunEnv} {s : Nat} (hstop : env.stopAt = some s)
    (t : Nat) : running env t = decide (t < s) := by
  unfold running
  rw [hstop]

lemma fp_checks_gt {env : RunEnv} {s : Nat} (hstop : env.stopAt = some s)
    (subjT bodyT : String) (sp : Int) (total : Nat) :
    ∀ (l : List (Nat × Row)) (p : Nat) (st : WSt),
      s < st.checks + l.length →
      s < (firstPass env subjT bodyT sp total l p st).2.2.checks := by
  intro l
  induction l with
  | nil =>
    intro p st h
    simp only [firstPass]
    simpa using h
  | cons hd tl ih =>
    obtain ⟨idx, row⟩ := hd
    intro p st h
    simp only [firstPass]
    by_cases hr : running env st.checks = false
    · rw [if_pos hr]
      rw [running_some hstop] at hr
      simp only [decide_eq_false_iff_not, Nat.not_lt] at hr
      simp only [bumpCheck]
      omega
    · rw [if_neg hr]
      dsimp only
      apply ih
      simp only [bumpCall, bumpCheck, List.length_cons] at h ⊢
      omega

lemma retryOuter_break (env : RunEnv) (subjT bodyT : String) (sp : Int)
    (maxR n : Nat) (failed : List (Nat × Row)) (st : WSt)
    (hr : running env st.checks = false) :
    (retryOuter env subjT bodyT sp maxR n failed st).1 = []
    ∧ (retryOuter env subjT bodyT sp maxR n failed st).2.1 = failed := by
  cases n with
  | zero => exact ⟨rfl, rfl⟩
  | succ n =>
    simp only [retryOuter]
    rw [if_pos (Or.inl hr)]
    exact ⟨rfl, rfl⟩

lemma fp_filter_status {env : RunEnv} {s : Nat} (hstop : env.stopAt = some s)
    (subjT bodyT : String) (sp : Int) (total : Nat) :
    ∀ (l : List (Nat × Row)) (p : Nat) (st : WSt),
      (firstPass env subjT bodyT sp total l p st).1.filter isStatusEv =
        fpStatuses env subjT bodyT sp (l.take (s - st.checks)) st.calls := by
  intro l
  induction l with
  | nil =>
    intro p st
    simp [firstPass, fpStatuses]
  | cons hd tl ih =>
    obtain ⟨idx, row⟩ := hd
    intro p st
    simp only [firstPass]
    by_cases hr : running env st.checks = false
    · rw [if_pos hr]
      rw [running_some hstop] at hr
      simp only [decide_eq_false_iff_not, Nat.not_lt] at hr
      have hz : s - st.checks = 0 := by omega
      rw [hz]
      simp [fpStatuses, isStatusEv]
    · rw [if_neg hr]
      dsimp only
      rw [running_some hstop] at hr
      simp only [eq_iff_iff, iff_false, decide_eq_false_iff_not,
        Decidable.not_not, Nat.not_lt] at hr
      have hlt : st.checks < s := by
        by_contra hcon
        exact hr (by simpa using hcon)
      obtain ⟨m, hm⟩ : ∃ m, s - st.checks = m + 1 :=
        ⟨s - st.checks - 1, by omega⟩
      rw [hm, List.take_succ_cons]
      rw [List.filter_append, sendOne_filter_status]
      rw [List.filter_cons_of_neg (by simp [isStatusEv])]
      rw [ih]
      simp only [fpStatuses, bumpCheck, bumpCall]
      have hm2 : s - (st.checks + 1) = m := by omega
      rw [hm2]
      rfl

lemma fpStatuses_countP_notmem (env : RunEnv) (subjT bodyT : String)
    (sp : Int) (i : Nat) :
    ∀ (l : List (Nat × Row)) (calls : Nat), i ∉ l.map Prod.fst →
      (fpStatuses env subjT bodyT sp l calls).countP (isStatusFor i) = 0 := by
  intro l
  induction l with
  | nil => intro calls h; rfl
  | cons hd tl ih =>
    obtain ⟨idx, row⟩ := hd
    intro calls h
    simp only [List.map_cons, List.mem_cons] at h
    push_neg at h
    simp only [fpStatuses, List.countP_cons]
    rw [ih _ h.2]
    simp only [isStatusFor]
    have hne : idx ≠ i := fun hh => h.1 hh.symm
    rw [if_neg (by simpa using hne)]

lemma fpStatuses_countP_mem (env : RunEnv) (subjT bodyT : String)
    (sp : Int) (i : Nat) :
    ∀ (l : List (Nat × Row)) (calls : Nat), (l.map Prod.fst).Nodup →
      i ∈ l.map Prod.fst →
      (fpStatuses env subjT bodyT sp l calls).countP (isStatusFor i) = 1 := by
  intro l
  induction l with
  | nil => intro calls hnd h; simp at h
  | cons hd tl ih =>
    obtain ⟨idx, row⟩ := hd
    intro calls hnd h
    simp only [List.map_cons, List.nodup_cons] at hnd
    simp only [List.map_cons, List.mem_cons] at h
    simp only [fpStatuses, List.countP_cons]
    rcases h with h | h
    · rw [fpStatuses_countP_notmem env subjT bodyT sp i tl (calls + 1)
        (by rw [h]; exact hnd.1)]
      simp only [isStatusFor]
      rw [if_pos (decide_eq_true h.symm)]
    · have hne : idx ≠ i := fun hh => hnd.1 (hh ▸ h)
      rw [ih _ hnd.2 h]
      simp only [isStatusFor]
      rw [if_neg (by simpa using hne)]

lemma fpStatuses_not_pending (env : RunEnv) (subjT bodyT : String)
    (sp : Int) :
    ∀ (l : List (Nat × Row)) (calls : Nat) (i : Nat) (st' : RowStatus),
      Ev.status i st' ∈ fpStatuses env subjT bodyT sp l calls →
      st' ≠ RowStatus.Pending := by
  intro l
  induction l with
  | nil => intro calls i st' h; simp [fpStatuses] at h
  | cons hd tl ih =>
    obtain ⟨idx, row⟩ := hd
    intro calls i st' h
    simp only [fpStatuses, List.mem_cons] at h
    rcases h with h | h
    · rw [Ev.status.injEq] at h
      rw [h.2]
      by_cases hb : (sendOne row idx subjT bodyT sp (env.worlds calls)).1 = true
      · rw [if_pos hb]; decide
      · rw [if_neg hb]; decide
    · exact ih _ i st' h

lemma countP_statusFor_filter (i : Nat) :
    ∀ l : List Ev,
      (l.filter isStatusEv).countP (isStatusFor i) =
        l.countP (isStatusFor i) := by
  intro l
  induction l with
  | nil => rfl
  | cons a tl ih =>
    by_cases hs : isStatusEv a = true
    · rw [List.filter_cons_of_pos hs, List.countP_cons, List.countP_cons, ih]
    · rw [List.filter_cons_of_neg (by simpa using hs), List.countP_cons, ih]
      have hf : isStatusFor i a = false := by
        cases a with
        | status j s => exact absurd rfl hs
        | progress p => rfl
        | log m => rfl
        | sleep n => rfl
        | submitted m => rfl
        | finished => rfl
      rw [hf]
      simp

lemma runWorker_cancel_shape {env : RunEnv} {s : Nat}
    (hconn : env.connectOk 0 = true) (hfold : env.folderRes = .ok ())
    (hstop : env.stopAt = some s)
    (rows' : List (Nat × Row)) (subjT bodyT : String) (sp : Int) (maxR : Nat)
    (hlen : s < rows'.length) :
    (runWorker env rows' subjT bodyT sp maxR).filter isStatusEv =
      fpStatuses env subjT bodyT sp (rows'.take s) 0
    ∧ (runWorker env rows' subjT bodyT sp maxR).count Ev.finished = 1 := by
  have hconn5 : connectLoop env 5 = ([Ev.log .connected], true) := by
    simp [connectLoop, hconn]
  have hgt : s <
      (firstPass env subjT bodyT sp rows'.length rows' 0 ⟨0, 0⟩).2.2.checks :=
    fp_checks_gt hstop subjT bodyT sp rows'.length rows' 0 ⟨0, 0⟩
      (by simpa using hlen)
  have hrun : running env
      (firstPass env subjT bodyT sp rows'.length rows' 0 ⟨0, 0⟩).2.2.checks =
        false := by
    rw [running_some hstop]
    simp only [decide_eq_false_iff_not, Nat.not_lt]
    omega
  have hro := retryOuter_break env subjT bodyT sp maxR maxR
    (firstPass env subjT bodyT sp rows'.length rows' 0 ⟨0, 0⟩).2.1
    (firstPass env subjT bodyT sp rows'.length rows' 0 ⟨0, 0⟩).2.2 hrun
  have hfp := fp_filter_status hstop subjT bodyT sp rows'.length rows' 0 ⟨0, 0⟩
  have hfpfin :
      (firstPass env subjT bodyT sp rows'.length rows' 0 ⟨0, 0⟩).1.count
        Ev.finished = 0 := by
    rw [List.count_eq_zero]
    intro hmem
    exact absurd
      (firstPass_benign env subjT bodyT sp rows'.length rows' 0 ⟨0, 0⟩
        Ev.finished hmem) (by decide)
  simp only [runWorker, hconn5, hfold]
  rw [if_neg (by decide : ¬ (true = false))]
  rw [hro.1, hro.2]
  by_cases hc :
      (firstPass env subjT bodyT sp rows'.length rows' 0 ⟨0, 0⟩).2.1 ≠ []
        ∧ 0 < maxR
  · rw [if_pos hc]
    dsimp only
    constructor
    · simp only [List.filter_append, hfp]
      by_cases ht :
          (firstPass env subjT bodyT sp rows'.length rows' 0 ⟨0, 0⟩).2.1 ≠ []
      · rw [if_pos ht]
        simp [isStatusEv]
      · rw [if_neg ht]
        simp [isStatusEv]
    · simp only [List.count_append, hfpfin]
      by_cases ht :
          (firstPass env subjT bodyT sp rows'.length rows' 0 ⟨0, 0⟩).2.1 ≠ []
      · rw [if_pos ht]
        simp
      · rw [if_neg ht]
        simp
  · rw [if_neg hc]
    dsimp only
    constructor
    · simp only [List.filter_append, hfp]
      by_cases ht :
          (firstPass env subjT bodyT sp rows'.length rows' 0 ⟨0, 0⟩).2.1 ≠ []
      · rw [if_pos ht]
        simp [isStatusEv]
      · rw [if_neg ht]
        simp [isStatusEv]
    · simp only [List.count_append, hfpfin]
      by_cases ht :
          (firstPass env subjT bodyT sp rows'.length rows' 0 ⟨0, 0⟩).2.1 ≠ []
      · rw [if_pos ht]
        simp
      · rw [if_neg ht]
        simp

/-- C3: when cancellation lands after row `k` of an `n`-row batch
(`k + 1 < n`), each of the rows `0..k` gets exactly one status event
(and emitted statuses are never `Pending`, so it is `Sent` or `Failed`),
the rows past `k` get no status event at all — they stay `Pending` —
and `finished` still fires exactly once. -/
theorem c3_cancel_mid_first_pass (env : RunEnv) (rows : List Row)
    (subjT bodyT : String) (sp : Int) (maxR : Nat) (k : Nat)
    (hconn : env.connectOk 0 = true)
    (hfold : env.folderRes = .ok ())
    (hstop : env.stopAt = some (k + 1))
    (hk : k + 1 < rows.length) :
    (∀ i, i ≤ k →
      (runWorker env rows.enum subjT bodyT sp maxR).countP (isStatusFor i) = 1)
    ∧ (∀ i, k < i →
      (runWorker env rows.enum subjT bodyT sp maxR).countP (isStatusFor i) = 0)
    ∧ (∀ i st', Ev.status i st' ∈ runWorker env rows.enum subjT bodyT sp maxR →
        st' ≠ RowStatus.Pending)
    ∧ (runWorker env rows.enum subjT bodyT sp maxR).count Ev.finished = 1 := by
  have hlen : k + 1 < rows.enum.length := by
    simpa [List.enum_length] using hk
  obtain ⟨hfilter, hfin⟩ :=
    runWorker_cancel_shape hconn hfold hstop rows.enum subjT bodyT sp maxR hlen
  have hlab : (rows.enum.take (k + 1)).map Prod.fst = List.range (k + 1) := by
    rw [List.map_take, List.enum_map_fst, List.take_range]
    congr 1
    omega
  refine ⟨?_, ?_, ?_, hfin⟩
  · intro i hi
    rw [← countP_statusFor_filter i, hfilter]
    apply fpStatuses_countP_mem
    · rw [hlab]
      exact List.nodup_range (k + 1)
    · rw [hlab]
      exact List.mem_range.mpr (by omega)
  · intro i hi
    rw [← countP_statusFor_filter i, hfilter]
    apply fpStatuses_countP_notmem
    rw [hlab]
    intro hmem
    exact absurd (List.mem_range.mp hmem) (by omega)
  · intro i st' hmem
    have h2 : Ev.status i st' ∈
        (runWorker env rows.enum subjT bodyT sp maxR).filter isStatusEv :=
      List.mem_filter.mpr ⟨hmem, rfl⟩
    rw [hfilter] at h2
    exact fpStatuses_not_pending env subjT bodyT sp _ 0 i st' h2

/-- Witness for C3: a two-row batch cancelled after row 0. -/
theorem c3_cancel_mid_first_pass_witness :
    (runWorker
        ⟨fun _ => true, .ok (),
          fun _ => ⟨true, .ok 0, .ok (), .ok (), fun _ => .ok 0, fun _ => .ok 0⟩,
          some 1⟩
        ([⟨"A", "", "", ""⟩, ⟨"B", "", "", ""⟩] : List Row).enum
        "s" "b" 0 1).countP (isStatusFor 0) = 1
    ∧ (runWorker
        ⟨fun _ => true, .ok (),
          fun _ => ⟨true, .ok 0, .ok (), .ok (), fun _ => .ok 0, fun _ => .ok 0⟩,
          some 1⟩
        ([⟨"A", "", "", ""⟩, ⟨"B", "", "", ""⟩] : List Row).enum
        "s" "b" 0 1).countP (isStatusFor 1) = 0
    ∧ (runWorker
        ⟨fun _ => true, .ok (),
          fun _ => ⟨true, .ok 0, .ok (), .ok (), fun _ => .ok 0, fun _ => .ok 0⟩,
          some 1⟩
        ([⟨"A", "", "", ""⟩, ⟨"B", "", "", ""⟩] : List Row).enum
        "s" "b" 0 1).count Ev.finished = 1 :=
  ⟨(c3_cancel_mid_first_pass _ _ "s" "b" 0 1 0 rfl rfl rfl (by decide)).1 0
      (by decide),
    (c3_cancel_mid_first_pass _ _ "s" "b" 0 1 0 rfl rfl rfl (by decide)).2.1 1
      (by decide),
    (c3_cancel_mid_first_pass _ _ "s" "b" 0 1 0 rfl rfl rfl (by decide)).2.2.2⟩

lemma filter_statusFor_via (i : Nat) :
    ∀ l : List Ev,
      (l.filter isStatusEv).filter (isStatusFor i) =
        l.filter (isStatusFor i) := by
  intro l
  induction l with
  | nil => rfl
  | cons a tl ih =>
    by_cases hs : isStatusEv a = true
    · rw [List.filter_cons_of_pos hs, List.filter_cons, List.filter_cons, ih]
    · rw [List.filter_cons_of_neg (by simpa using hs)]
      have hf : isStatusFor i a = false := by
        cases a with
        | status j s => exact absurd rfl hs
        | progress p => rfl
        | log m => rfl
        | sleep n => rfl
        | submitted m => rfl
        | finished => rfl
      rw [ih, List.filter_cons_of_neg (by simp [hf])]

lemma sendOne_filter_statusFor (i : Nat) (row : Row) (idx : Nat)
    (subjT bodyT : String) (sp : Int) (w : SendWorld) :
    (sendOne row idx subjT bodyT sp w).2.filter (isStatusFor i) =
      if idx = i then
        [Ev.status idx
          (if (sendOne row idx subjT bodyT sp w).1 then RowStatus.Sent
           else RowStatus.Failed)]
      else [] := by
  rw [← filter_statusFor_via, sendOne_filter_status]
  by_cases h : idx = i
  · rw [if_pos h, List.filter_cons_of_pos (by simp [isStatusFor, h])]
    rfl
  · rw [if_neg h, List.filter_cons_of_neg (by simp [isStatusFor, h])]
    rfl

lemma firstPass_statusFor_notmem (env : RunEnv) (subjT bodyT : String)
    (sp : Int) (total : Nat) (i : Nat) :
    ∀ (l : List (Nat × Row)) (p : Nat) (st : WSt), i ∉ l.map Prod.fst →
      (firstPass env subjT bodyT sp total l p st).1.filter (isStatusFor i) = []
      ∧ i ∉ (firstPass env subjT bodyT sp total l p st).2.1.map Prod.fst := by
  intro l
  induction l with
  | nil =>
    intro p st h
    simp [firstPass]
  | cons hd tl ih =>
    obtain ⟨idx, row⟩ := hd
    intro p st h
    simp only [List.map_cons, List.mem_cons] at h
    push_neg at h
    simp only [firstPass]
    by_cases hr : running env st.checks = false
    · rw [if_pos hr]
      constructor
      · rfl
      · simp
    · rw [if_neg hr]
      dsimp only
      obtain ⟨ih1, ih2⟩ := ih (p + 1) (bumpCall (bumpCheck st)) h.2
      constructor
      · rw [List.filter_append,
          sendOne_filter_statusFor i row idx subjT bodyT sp _,
          if_neg (fun hh => h.1 hh.symm),
          List.filter_cons_of_neg (by simp [isStatusFor]), ih1]
        rfl
      · by_cases hres : (sendOne row idx subjT bodyT sp
            (env.worlds (bumpCheck st).calls)).1 = true
        · rw [if_pos hres]
          exact ih2
        · rw [if_neg hres]
          simp only [List.map_cons, List.mem_cons]
          push_neg
          exact ⟨h.1, ih2⟩

lemma firstPass_statusFor (env : RunEnv) (subjT bodyT : String)
    (sp : Int) (total : Nat) (i : Nat) :
    ∀ (l : List (Nat × Row)) (p : Nat) (st : WSt), (l.map Prod.fst).Nodup →
      ((firstPass env subjT bodyT sp total l p st).1.filter (isStatusFor i) = []
          ∧ i ∉ (firstPass env subjT bodyT sp total l p st).2.1.map Prod.fst)
      ∨ ((firstPass env subjT bodyT sp total l p st).1.filter (isStatusFor i) =
            [Ev.status i RowStatus.Sent]
          ∧ i ∉ (firstPass env subjT bodyT sp total l p st).2.1.map Prod.fst)
      ∨ (firstPass env subjT bodyT sp total l p st).1.filter (isStatusFor i) =
          [Ev.status i RowStatus.Failed] := by
  intro l
  induction l with
  | nil =>
    intro p st hnd
    left
    simp [firstPass]
  | cons hd tl ih =>
    obtain ⟨idx, row⟩ := hd
    intro p st hnd
    simp only [List.map_cons, List.nodup_cons] at hnd
    simp only [firstPass]
    by_cases hr : running env st.checks = false
    · rw [if_pos hr]
      left
      constructor
      · rfl
      · simp
    · rw [if_neg hr]
      dsimp only
      by_cases hii : idx = i
      · subst hii
        obtain ⟨hrec1, hrec2⟩ := firstPass_statusFor_notmem env subjT bodyT sp
          total idx tl (p + 1) (bumpCall (bumpCheck st)) hnd.1
        have hflt : ((sendOne row idx subjT bodyT sp
              (env.worlds (bumpCheck st).calls)).2 ++
            Ev.progress ((p + 1) * 100 / total) ::
              (firstPass env subjT bodyT sp total tl (p + 1)
                (bumpCall (bumpCheck st))).1).filter (isStatusFor idx) =
            [Ev.status idx
              (if (sendOne row idx subjT bodyT sp
                  (env.worlds (bumpCheck st).calls)).1 then RowStatus.Sent
               else RowStatus.Failed)] := by
          rw [List.filter_append,
            sendOne_filter_statusFor idx row idx subjT bodyT sp _,
            if_pos rfl,
            List.filter_cons_of_neg (by simp [isStatusFor]), hrec1]
          rfl
        by_cases hres : (sendOne row idx subjT bodyT sp
            (env.worlds (bumpCheck st).calls)).1 = true
        · right; left
          constructor
          · rw [hflt, if_pos hres]
          · rw [if_pos hres]
            exact hrec2
        · right; right
          rw [hflt, if_neg hres]
      · rcases ih (p + 1) (bumpCall (bumpCheck st)) hnd.2 with
          ⟨h1, h2⟩ | ⟨h1, h2⟩ | h1
        · left
          constructor
          · rw [List.filter_append,
              sendOne_filter_statusFor i row idx subjT bodyT sp _,
              if_neg hii,
              List.filter_cons_of_neg (by simp [isStatusFor]), h1]
            rfl
          · by_cases hres : (sendOne row idx subjT bodyT sp
                (env.worlds (bumpCheck st).calls)).1 = true
            · rw [if_pos hres]
              exact h2
            · rw [if_neg hres]
              simp only [List.map_cons, List.mem_cons]
              push_neg
              exact ⟨fun hh => hii hh.symm, h2⟩
        · right; left
          constructor
          · rw [List.filter_append,
              sendOne_filter_statusFor i row idx subjT bodyT sp _,
              if_neg hii,
              List.filter_cons_of_neg (by simp [isStatusFor]), h1]
            rfl
          · by_cases hres : (sendOne row idx subjT bodyT sp
                (env.worlds (bumpCheck st).calls)).1 = true
            · rw [if_pos hres]
              exact h2
            · rw [if_neg hres]
              simp only [List.map_cons, List.mem_cons]
              push_neg
              exact ⟨fun hh => hii hh.symm, h2⟩
        · right; right
          rw [List.filter_append,
            sendOne_filter_statusFor i row idx subjT bodyT sp _,
            if_neg hii,
            List.filter_cons_of_neg (by simp [isStatusFor]), h1]
          rfl

lemma retryInner_statusFor_notmem (env : RunEnv) (subjT bodyT : String)
    (sp : Int) (i : Nat) :
    ∀ (l : List (Nat × Row)) (st : WSt), i ∉ l.map Prod.fst →
      (retryInner env subjT bodyT sp l st).1.filter (isStatusFor i) = []
      ∧ i ∉ (retryInner env subjT bodyT sp l st).2.1.map Prod.fst := by
  intro l
  induction l with
  | nil =>
    intro st h
    simp [retryInner]
  | cons hd tl ih =>
    obtain ⟨idx, row⟩ := hd
    intro st h
    simp only [List.map_cons, List.mem_cons] at h
    push_neg at h
    simp only [retryInner]
    by_cases hr : running env st.checks = false
    · rw [if_pos hr]
      constructor
      · rfl
      · simp
    · rw [if_neg hr]
      dsimp only
      obtain ⟨ih1, ih2⟩ := ih (bumpCall (bumpCheck st)) h.2
      constructor
      · rw [List.filter_append,
          sendOne_filter_statusFor i row idx subjT bodyT sp _,
          if_neg (fun hh => h.1 hh.symm), ih1]
        rfl
      · by_cases hres : (sendOne row idx subjT bodyT sp
            (env.worlds (bumpCheck st).calls)).1 = true
        · rw [if_pos hres]
          exact ih2
        · rw [if_neg hres]
          simp only [List.map_cons, List.mem_cons]
          push_neg
          exact ⟨h.1, ih2⟩

lemma retryInner_statusFor (env : RunEnv) (subjT bodyT : String)
    (sp : Int) (i : Nat) :
    ∀ (l : List (Nat × Row)) (st : WSt), (l.map Prod.fst).Nodup →
      ((retryInner env subjT bodyT sp l st).1.filter (isStatusFor i) = []
          ∧ i ∉ (retryInner env subjT bodyT sp l st).2.1.map Prod.fst)
      ∨ ((retryInner env subjT bodyT sp l st).1.filter (isStatusFor i) =
            [Ev.status i RowStatus.Sent]
          ∧ i ∉ (retryInner env subjT bodyT sp l st).2.1.map Prod.fst)
      ∨ (retryInner env subjT bodyT sp l st).1.filter (isStatusFor i) =
          [Ev.status i RowStatus.Failed] := by
  intro l
  induction l with
  | nil =>
    intro st hnd
    left
    simp [retryInner]
  | cons hd tl ih =>
    obtain ⟨idx, row⟩ := hd
    intro st hnd
    simp only [List.map_cons, List.nodup_cons] at hnd
    simp only [retryInner]
    by_cases hr : running env st.checks = false
    · rw [if_pos hr]
      left
      constructor
      · rfl
      · simp
    · rw [if_neg hr]
      dsimp only
      by_cases hii : idx = i
      · subst hii
        obtain ⟨hrec1, hrec2⟩ := retryInner_statusFor_notmem env subjT bodyT sp
          idx tl (bumpCall (bumpCheck st)) hnd.1
        have hflt : ((sendOne row idx subjT bodyT sp
              (env.worlds (bumpCheck st).calls)).2 ++
            (retryInner env subjT bodyT sp tl
              (bumpCall (bumpCheck st))).1).filter (isStatusFor idx) =
            [Ev.status idx
              (if (sendOne row idx subjT bodyT sp
                  (env.worlds (bumpCheck st).calls)).1 then RowStatus.Sent
               else RowStatus.Failed)] := by
          rw [List.filter_append,
            sendOne_filter_statusFor idx row idx subjT bodyT sp _,
            if_pos rfl, hrec1]
          rfl
        by_cases hres : (sendOne row idx subjT bodyT sp
            (env.worlds (bumpCheck st).calls)).1 = true
        · right; left
          constructor
          · rw [hflt, if_pos hres]
          · rw [if_pos hres]
            exact hrec2
        · right; right
          rw [hflt, if_neg hres]
      · rcases ih (bumpCall (bumpCheck st)) hnd.2 with
          ⟨h1, h2⟩ | ⟨h1, h2⟩ | h1
        · left
          constructor
          · rw [List.filter_append,
              sendOne_filter_statusFor i row idx subjT bodyT sp _,
              if_neg hii, h1]
            rfl
          · by_cases hres : (sendOne row idx subjT bodyT sp
                (env.worlds (bumpCheck st).calls)).1 = true
            · rw [if_pos hres]
              exact h2
            · rw [if_neg hres]
              simp only [List.map_cons, List.mem_cons]
              push_neg
              exact ⟨fun hh => hii hh.symm, h2⟩
        · right; left
          constructor
          · rw [List.filter_append,
              sendOne_filter_statusFor i row idx subjT bodyT sp _,
              if_neg hii, h1]
            rfl
          · by_cases hres : (sendOne row idx subjT bodyT sp
                (env.worlds (bumpCheck st).calls)).1 = true
            · rw [if_pos hres]
              exact h2
            · rw [if_neg hres]
              simp only [List.map_cons, List.mem_cons]
              push_neg
              exact ⟨fun hh => hii hh.symm, h2⟩
        · right; right
          rw [List.filter_append,
            sendOne_filter_statusFor i row idx subjT bodyT sp _,
            if_neg hii, h1]
          rfl

lemma retryInner_failed_sublist (env : RunEnv) (subjT bodyT : String)
    (sp : Int) :
    ∀ (l : List (Nat × Row)) (st : WSt),
      ((retryInner env subjT bodyT sp l st).2.1.map Prod.fst).Sublist
        (l.map Prod.fst) := by
  intro l
  induction l with
  | nil =>
    intro st
    simp [retryInner]
  | cons hd tl ih =>
    obtain ⟨idx, row⟩ := hd
    intro st
    simp only [retryInner]
    by_cases hr : running env st.checks = false
    · rw [if_pos hr]
      simp
    · rw [if_neg hr]
      dsimp only
      by_cases hres : (sendOne row idx subjT bodyT sp
          (env.worlds (bumpCheck st).calls)).1 = true
      · rw [if_pos hres]
        exact (ih (bumpCall (bumpCheck st))).trans (List.sublist_cons_self _ _)
      · rw [if_neg hres]
        simp only [List.map_cons]
        exact List.Sublist.cons₂ _ (ih (bumpCall (bumpCheck st)))

lemma firstPass_failed_sublist (env : RunEnv) (subjT bodyT : String)
    (sp : Int) (total : Nat) :
    ∀ (l : List (Nat × Row)) (p : Nat) (st : WSt),
      ((firstPass env subjT bodyT sp total l p st).2.1.map Prod.fst).Sublist
        (l.map Prod.fst) := by
  intro l
  induction l with
  | nil =>
    intro p st
    simp [firstPass]
  | cons hd tl ih =>
    obtain ⟨idx, row⟩ := hd
    intro p st
    simp only [firstPass]
    by_cases hr : running env st.checks = false
    · rw [if_pos hr]
      simp
    · rw [if_neg hr]
      dsimp only
      by_cases hres : (sendOne row idx subjT bodyT sp
          (env.worlds (bumpCheck st).calls)).1 = true
      · rw [if_pos hres]
        exact (ih (p + 1) (bumpCall (bumpCheck st))).trans
          (List.sublist_cons_self _ _)
      · rw [if_neg hres]
        simp only [List.map_cons]
        exact List.Sublist.cons₂ _ (ih (p + 1) (bumpCall (bumpCheck st)))

lemma retryOuter_statusFor_notmem (env : RunEnv) (subjT bodyT : String)
    (sp : Int) (maxR : Nat) (i : Nat) :
    ∀ (n : Nat) (failed : List (Nat × Row)) (st : WSt),
      i ∉ failed.map Prod.fst →
      (retryOuter env subjT bodyT sp maxR n failed st).1.filter
        (isStatusFor i) = [] := by
  intro n
  induction n with
  | zero => intro failed st h; rfl
  | succ n ih =>
    intro failed st h
    simp only [retryOuter]
    by_cases hc : running env st.checks = false ∨ failed = []
    · rw [if_pos hc]
      rfl
    · rw [if_neg hc]
      dsimp only
      obtain ⟨hi1, hi2⟩ := retryInner_statusFor_notmem env subjT bodyT sp i
        failed (bumpCheck st) h
      rw [List.filter_append, List.filter_append,
        List.filter_cons_of_neg (by simp [isStatusFor]), hi1,
        ih _ _ hi2]
      have hsl : (if (retryInner env subjT bodyT sp failed
          (bumpCheck st)).2.1 = [] then ([] : List Ev)
          else [Ev.sleep 2]).filter (isStatusFor i) = [] := by
        by_cases hs : (retryInner env subjT bodyT sp failed
            (bumpCheck st)).2.1 = []
        · rw [if_pos hs]
          rfl
        · rw [if_neg hs]
          rfl
      rw [hsl]
      rfl

lemma retryOuter_statusFor (env : RunEnv) (subjT bodyT : String)
    (sp : Int) (maxR : Nat) (i : Nat) :
    ∀ (n : Nat) (failed : List (Nat × Row)) (st : WSt),
      (failed.map Prod.fst).Nodup →
      ∃ m,
        (retryOuter env subjT bodyT sp maxR n failed st).1.filter
            (isStatusFor i) =
          List.replicate m (Ev.status i RowStatus.Failed)
        ∨ (retryOuter env subjT bodyT sp maxR n failed st).1.filter
            (isStatusFor i) =
          List.replicate m (Ev.status i RowStatus.Failed) ++
            [Ev.status i RowStatus.Sent] := by
  intro n
  induction n with
  | zero =>
    intro failed st hnd
    exact ⟨0, Or.inl rfl⟩
  | succ n ih =>
    intro failed st hnd
    simp only [retryOuter]
    by_cases hc : running env st.checks = false ∨ failed = []
    · rw [if_pos hc]
      exact ⟨0, Or.inl rfl⟩
    · rw [if_neg hc]
      dsimp only
      have hsl : (if (retryInner env subjT bodyT sp failed
          (bumpCheck st)).2.1 = [] then ([] : List Ev)
          else [Ev.sleep 2]).filter (isStatusFor i) = [] := by
        by_cases hs : (retryInner env subjT bodyT sp failed
            (bumpCheck st)).2.1 = []
        · rw [if_pos hs]
          rfl
        · rw [if_neg hs]
          rfl
      have hndi : ((retryInner env subjT bodyT sp failed
          (bumpCheck st)).2.1.map Prod.fst).Nodup :=
        (retryInner_failed_sublist env subjT bodyT sp failed
          (bumpCheck st)).nodup hnd
      rcases retryInner_statusFor env subjT bodyT sp i failed (bumpCheck st)
          hnd with ⟨h1, h2⟩ | ⟨h1, h2⟩ | h1
      · refine ⟨0, Or.inl ?_⟩
        rw [List.filter_append, List.filter_append,
          List.filter_cons_of_neg (by simp [isStatusFor]), h1, hsl,
          retryOuter_statusFor_notmem env subjT bodyT sp maxR i n _ _ h2]
        rfl
      · refine ⟨0, Or.inr ?_⟩
        rw [List.filter_append, List.filter_append,
          List.filter_cons_of_neg (by simp [isStatusFor]), h1, hsl,
          retryOuter_statusFor_notmem env subjT bodyT sp maxR i n _ _ h2]
        rfl
      · obtain ⟨m, hm⟩ := ih (retryInner env subjT bodyT sp failed
          (bumpCheck st)).2.1 (retryInner env subjT bodyT sp failed
          (bumpCheck st)).2.2 hndi
        refine ⟨m + 1, ?_⟩
        rw [List.filter_append, List.filter_append,
          List.filter_cons_of_neg (by simp [isStatusFor]), h1, hsl]
        rcases hm with hm | hm
        · left
          rw [hm, List.replicate_succ]
          rfl
        · right
          rw [hm, List.replicate_succ]
          rfl

lemma connectLoop_statusFor (env : RunEnv) (i : Nat) :
    ∀ n, (connectLoop env n).1.filter (isStatusFor i) = [] := by
  intro n
  induction n with
  | zero => rfl
  | succ n ih =>
    simp only [connectLoop]
    by_cases hok : env.connectOk (5 - (n + 1)) = true
    · rw [if_pos hok]
      rfl
    · rw [if_neg hok]
      dsimp only
      rw [List.filter_cons_of_neg (by simp [isStatusFor]),
        List.filter_cons_of_neg (by simp [isStatusFor]), ih]

lemma connectLoop_benign (env : RunEnv) :
    ∀ (n : Nat) (e : Ev), e ∈ (connectLoop env n).1 → benignEv e = true := by
  intro n
  induction n with
  | zero => intro e he; simp [connectLoop] at he
  | succ n ih =>
    intro e he
    simp only [connectLoop] at he
    by_cases hok : env.connectOk (5 - (n + 1)) = true
    · rw [if_pos hok] at he
      simp at he
      rw [he]
      rfl
    · rw [if_neg hok] at he
      dsimp only at he
      rcases List.mem_cons.mp he with h | h
      · rw [h]
        rfl
      · rcases List.mem_cons.mp h with h2 | h2
        · rw [h2]
          rfl
        · exact ih e h2

lemma filter_statusFor_iteLog (i : Nat) (c : Prop) [Decidable c]
    (m : LogMsg) :
    (if c then [Ev.log m] else ([] : List Ev)).filter (isStatusFor i) = [] := by
  by_cases h : c
  · rw [if_pos h]
    rfl
  · rw [if_neg h]
    rfl

lemma runWorker_statusFor (env : RunEnv) (rows' : List (Nat × Row))
    (subjT bodyT : String) (sp : Int) (maxR : Nat) (i : Nat)
    (hnd : (rows'.map Prod.fst).Nodup) :
    ∃ m,
      (runWorker env rows' subjT bodyT sp maxR).filter (isStatusFor i) =
        List.replicate m (Ev.status i RowStatus.Failed)
      ∨ (runWorker env rows' subjT bodyT sp maxR).filter (isStatusFor i) =
        List.replicate m (Ev.status i RowStatus.Failed) ++
          [Ev.status i RowStatus.Sent] := by
  simp only [runWorker]
  by_cases hcf : (connectLoop env 5).2 = false
  · rw [if_pos hcf]
    refine ⟨0, Or.inl ?_⟩
    rw [List.filter_append, connectLoop_statusFor]
    rfl
  · rw [if_neg hcf]
    cases hfr : env.folderRes with
    | error err =>
      refine ⟨0, Or.inl ?_⟩
      rw [List.filter_append, connectLoop_statusFor]
      rfl
    | ok u =>
      dsimp only
      by_cases hc : (firstPass env subjT bodyT sp rows'.length rows' 0
          ⟨0, 0⟩).2.1 ≠ [] ∧ 0 < maxR
      · rw [if_pos hc]
        dsimp only
        have hnf : ((firstPass env subjT bodyT sp rows'.length rows' 0
            ⟨0, 0⟩).2.1.map Prod.fst).Nodup :=
          (firstPass_failed_sublist env subjT bodyT sp rows'.length rows' 0
            ⟨0, 0⟩).nodup hnd
        rcases firstPass_statusFor env subjT bodyT sp rows'.length i rows' 0
            ⟨0, 0⟩ hnd with ⟨h1, h2⟩ | ⟨h1, h2⟩ | h1
        · refine ⟨0, Or.inl ?_⟩
          simp only [List.filter_append, connectLoop_statusFor, h1,
            List.filter_cons_of_neg
              (show ¬ isStatusFor i (Ev.log (.retryingHeader
                (firstPass env subjT bodyT sp rows'.length rows' 0
                  ⟨0, 0⟩).2.1.length)) = true by simp [isStatusFor]),
            retryOuter_statusFor_notmem env subjT bodyT sp maxR i maxR _ _ h2,
            filter_statusFor_iteLog]
          rfl
        · refine ⟨0, Or.inr ?_⟩
          simp only [List.filter_append, connectLoop_statusFor, h1,
            List.filter_cons_of_neg
              (show ¬ isStatusFor i (Ev.log (.retryingHeader
                (firstPass env subjT bodyT sp rows'.length rows' 0
                  ⟨0, 0⟩).2.1.length)) = true by simp [isStatusFor]),
            retryOuter_statusFor_notmem env subjT bodyT sp maxR i maxR _ _ h2,
            filter_statusFor_iteLog]
          rfl
        · obtain ⟨m, hm⟩ := retryOuter_statusFor env subjT bodyT sp maxR i
            maxR (firstPass env subjT bodyT sp rows'.length rows' 0
              ⟨0, 0⟩).2.1 (firstPass env subjT bodyT sp rows'.length rows' 0
              ⟨0, 0⟩).2.2 hnf
          refine ⟨m + 1, ?_⟩
          rcases hm with hm | hm
          · left
            simp only [List.filter_append, connectLoop_statusFor, h1,
              List.filter_cons_of_neg
                (show ¬ isStatusFor i (Ev.log (.retryingHeader
                  (firstPass env subjT bodyT sp rows'.length rows' 0
                    ⟨0, 0⟩).2.1.length)) = true by simp [isStatusFor]),
              hm, filter_statusFor_iteLog]
            simp [List.replicate_succ, isStatusFor]
          · right
            simp only [List.filter_append, connectLoop_statusFor, h1,
              List.filter_cons_of_neg
                (show ¬ isStatusFor i (Ev.log (.retryingHeader
                  (firstPass env subjT bodyT sp rows'.length rows' 0
                    ⟨0, 0⟩).2.1.length)) = true by simp [isStatusFor]),
              hm, filter_statusFor_iteLog]
            simp [List.replicate_succ, isStatusFor]
      · rw [if_neg hc]
        dsimp only
        rcases firstPass_statusFor env subjT bodyT sp rows'.length i rows' 0
            ⟨0, 0⟩ hnd with ⟨h1, h2⟩ | ⟨h1, h2⟩ | h1
        · refine ⟨0, Or.inl ?_⟩
          simp only [List.filter_append, connectLoop_statusFor, h1,
            filter_statusFor_iteLog]
          rfl
        · refine ⟨0, Or.inr ?_⟩
          simp only [List.filter_append, connectLoop_statusFor, h1,
            filter_statusFor_iteLog]
          rfl
        · refine ⟨1, Or.inl ?_⟩
          simp only [List.filter_append, connectLoop_statusFor, h1,
            filter_statusFor_iteLog]
          rfl

lemma runWorker_mem (env : RunEnv) (rows' : List (Nat × Row))
    (subjT bodyT : String) (sp : Int) (maxR : Nat) :
    ∀ e ∈ runWorker env rows' subjT bodyT sp maxR,
      benignEv e = true ∨ isRetryLog e = true ∨ e = Ev.finished := by
  intro e he
  simp only [runWorker] at he
  by_cases hcf : (connectLoop env 5).2 = false
  · rw [if_pos hcf] at he
    rcases List.mem_append.mp he with h | h
    · exact Or.inl (connectLoop_benign env 5 e h)
    · rcases List.mem_cons.mp h with h2 | h2
      · left
        rw [h2]
        rfl
      · right; right
        simpa using h2
  · rw [if_neg hcf] at he
    cases hfr : env.folderRes with
    | error err =>
      rw [hfr] at he
      dsimp only at he
      rcases List.mem_append.mp he with h | h
      · exact Or.inl (connectLoop_benign env 5 e h)
      · rcases List.mem_cons.mp h with h2 | h2
        · left
          rw [h2]
          rfl
        · right; right
          simpa using h2
    | ok u =>
      rw [hfr] at he
      dsimp only at he
      rcases List.mem_append.mp he with h | h
      · rcases List.mem_append.mp h with h2 | h2
        · rcases List.mem_append.mp h2 with h3 | h3
          · rcases List.mem_append.mp h3 with h4 | h4
            · exact Or.inl (connectLoop_benign env 5 e h4)
            · exact Or.inl (firstPass_benign env subjT bodyT sp rows'.length
                rows' 0 ⟨0, 0⟩ e h4)
          · by_cases hc : (firstPass env subjT bodyT sp rows'.length rows' 0
                ⟨0, 0⟩).2.1 ≠ [] ∧ 0 < maxR
            · rw [if_pos hc] at h3
              dsimp only at h3
              rcases List.mem_cons.mp h3 with h4 | h4
              · left
                rw [h4]
                rfl
              · rcases retryOuter_benign env subjT bodyT sp maxR maxR _ _ e h4
                  with hb | hb
                · exact Or.inl hb
                · exact Or.inr (Or.inl hb)
            · rw [if_neg hc] at h3
              simp at h3
        · by_cases ht : (if (firstPass env subjT bodyT sp rows'.length rows' 0
              ⟨0, 0⟩).2.1 ≠ [] ∧ 0 < maxR then
                (Ev.log (.retryingHeader (firstPass env subjT bodyT sp
                    rows'.length rows' 0 ⟨0, 0⟩).2.1.length) ::
                  (retryOuter env subjT bodyT sp maxR maxR
                    (firstPass env subjT bodyT sp rows'.length rows' 0
                      ⟨0, 0⟩).2.1
                    (firstPass env subjT bodyT sp rows'.length rows' 0
                      ⟨0, 0⟩).2.2).1,
                  (retryOuter env subjT bodyT sp maxR maxR
                    (firstPass env subjT bodyT sp rows'.length rows' 0
                      ⟨0, 0⟩).2.1
                    (firstPass env subjT bodyT sp rows'.length rows' 0
                      ⟨0, 0⟩).2.2).2.1)
              else ([], (firstPass env subjT bodyT sp rows'.length rows' 0
                ⟨0, 0⟩).2.1)).2 ≠ []
          · rw [if_pos ht] at h2
            rcases List.mem_cons.mp h2 with h3 | h3
            · left
              rw [h3]
              rfl
            · simp at h3
          · rw [if_neg ht] at h2
            simp at h2
      · right; right
        simpa using h

lemma rep_sent_unique {i : Nat} {B : List Ev} :
    ∀ {m : Nat} {A : List Ev},
      A ++ Ev.status i RowStatus.Sent :: B =
        List.replicate m (Ev.status i RowStatus.Failed) ++
          [Ev.status i RowStatus.Sent] →
      B = [] := by
  intro m
  induction m with
  | zero =>
    intro A h
    cases A with
    | nil => simpa using h
    | cons a A' => simp at h
  | succ m ih =>
    intro A h
    rw [List.replicate_succ] at h
    cases A with
    | nil => simp at h
    | cons a A' =>
      rw [List.cons_append, List.cons_append, List.cons.injEq] at h
      exact ih h.2

/-- C4: emitted per-row statuses are never `Pending`, and once a run's
trace reports a row `Sent`, no later event of that run reports any
status for that row again — a successfully sent row is never
re-attempted or reverted. -/
theorem c4_sent_never_reverts (env : RunEnv) (rows' : List (Nat × Row))
    (subjT bodyT : String) (sp : Int) (maxR : Nat)
    (hnd : (rows'.map Prod.fst).Nodup) :
    (∀ i st', Ev.status i st' ∈ runWorker env rows' subjT bodyT sp maxR →
        st' ≠ RowStatus.Pending)
    ∧ ∀ i pre post,
        runWorker env rows' subjT bodyT sp maxR =
          pre ++ Ev.status i RowStatus.Sent :: post →
        ∀ st', Ev.status i st' ∉ post := by
  constructor
  · intro i st' hmem hpend
    subst hpend
    rcases runWorker_mem env rows' subjT bodyT sp maxR _ hmem with h | h | h
    · simp [benignEv] at h
    · simp [isRetryLog] at h
    · exact Ev.noConfusion h
  · intro i pre post heq st' hmem
    obtain ⟨m, hf⟩ := runWorker_statusFor env rows' subjT bodyT sp maxR i hnd
    rw [heq, List.filter_append,
      List.filter_cons_of_pos (by simp [isStatusFor])] at hf
    have hmemf : Ev.status i st' ∈ post.filter (isStatusFor i) :=
      List.mem_filter.mpr ⟨hmem, by simp [isStatusFor]⟩
    rcases hf with hf | hf
    · have hsm : Ev.status i RowStatus.Sent ∈
          List.replicate m (Ev.status i RowStatus.Failed) := by
        rw [← hf]
        exact List.mem_append_right _ (List.mem_cons_self _ _)
      have h2 := List.eq_of_mem_replicate hsm
      simp at h2
    · have hB := rep_sent_unique hf
      rw [hB] at hmemf
      simp at hmemf

/-- Witness for C4: a one-row all-success run; the status event after
the `Sent` decomposition point is never a status for that row. -/
theorem c4_sent_never_reverts_witness :
    Ev.status 0 RowStatus.Sent ∉
      ([Ev.log (.sentTo "a@b.c"), Ev.progress 100, Ev.finished] :
        List Ev) :=
  (c4_sent_never_reverts
      ⟨fun _ => true, .ok (),
        fun _ => ⟨true, .ok 0, .ok (), .ok (), fun _ => .ok 0, fun _ => .ok 0⟩,
        none⟩ [(0, ⟨"N", "a@b.c", "", "p"⟩)] "s" "b" 0 1 (by decide)).2 0
    [Ev.log .connected,
      Ev.submitted (buildMail ⟨"N", "a@b.c", "", "p"⟩ "s" "b" 0)]
    [Ev.log (.sentTo "a@b.c"), Ev.progress 100, Ev.finished]
    rfl RowStatus.Sent

end Eru
